import Mathlib

/-!
Verification development for the yamlr manifest-healing engine.

The definitions below are shallow embeddings of the Python sources:
  * `src/yamlr/core/deprecations.py`   (deprecation table and checker)
  * `src/yamlr/core/migrator.py`       (MigrationEngine)
  * `src/yamlr/analyzers/best_practices.py` (ImageAnalyzer)
  * `src/yamlr/analyzers/cross_resource.py` (CrossResourceAnalyzer)
  * `src/akeso/parsers/lexer.py`       (AkesoLexer semantic extraction)
  * `src/yamlr/parsers/structurer.py`  (YamlrStructurer value cleaning)
  * `src/yamlr/core/pipeline.py`       (HealingPipeline orchestration)

Python values are modelled by the `Yaml` inductive; Python dictionaries by
association lists; Python exceptions by `Except String`; mutable object
graphs (for the frame property of the migrator) by an explicit heap of
nodes addressed by `Nat`.
-/

namespace Yamlr

/-- Python values as they occur in reconstructed YAML documents:
`None`, `bool`, `int`, `float` (carried as its source literal, since no
float arithmetic is ever performed on it), `str`, `list`, `dict`. -/
inductive Yaml where
  | null : Yaml
  | bool : Bool → Yaml
  | int : Int → Yaml
  | float : String → Yaml
  | str : String → Yaml
  | seq : List Yaml → Yaml
  | map : List (String × Yaml) → Yaml
deriving Repr

/-- A Python dictionary with string keys, in insertion order. -/
abbrev YMap := List (String × Yaml)

/-- First binding of a key in a dictionary (Python `d[k]` / `d.get(k)`). -/
def ymGet (m : YMap) (k : String) : Option Yaml :=
  (m.find? (fun kv => kv.1 = k)).map (·.2)

/-- Python `d.get(k, default)`. -/
def ymGetD (m : YMap) (k : String) (dflt : Yaml) : Yaml :=
  (ymGet m k).getD dflt

/-- Python `k in d` for a dictionary. -/
def ymHas (m : YMap) (k : String) : Bool :=
  (ymGet m k).isSome

/-- Python `d[k] = v`: replace the first binding in place, else append
(insertion order is preserved, as for CPython dicts). -/
def ymSet (m : YMap) (k : String) (v : Yaml) : YMap :=
  match m with
  | [] => [(k, v)]
  | (k', v') :: rest =>
      if k' = k then (k, v) :: rest else (k', v') :: ymSet rest k v

/-- Digits appearing before the exponent marker of a float literal; a valid
Python float literal denotes zero exactly when all of these are `'0'`. -/
def floatMantissaAllZero (s : String) : Bool :=
  (s.data.takeWhile (fun c => c ≠ 'e' ∧ c ≠ 'E')).all
    (fun c => !c.isDigit || c = '0')

/-- Python truthiness (`bool(x)`) on the modelled values. -/
def Yaml.truthy : Yaml → Bool
  | .null => false
  | .bool b => b
  | .int n => n ≠ 0
  | .float s => !floatMantissaAllZero s
  | .str s => s ≠ ""
  | .seq xs => !xs.isEmpty
  | .map m => !m.isEmpty

/-- Python `str(x)` as used inside audit f-strings (only scalars appear
there in practice; containers are rendered structurally). -/
def pyStr : Yaml → String
  | .null => "None"
  | .bool b => if b then "True" else "False"
  | .int n => toString n
  | .float s => s
  | .str s => s
  | .seq _ => "[...]"
  | .map _ => "{...}"

/-- Substring containment, Python's `needle in haystack` on strings. -/
def strContains (haystack needle : List Char) : Bool :=
  match haystack with
  | [] => needle.isEmpty
  | _ :: rest => needle.isPrefixOf haystack || strContains rest needle

/-- `String`-level wrapper for `strContains`. -/
def pyInStr (needle haystack : String) : Bool :=
  strContains haystack.data needle.data

/-! ## Deprecation database (`src/yamlr/core/deprecations.py`) -/

/-- Record mirroring the frozen dataclass `DeprecationInfo`. -/
structure DeprecationInfo where
  deprecated_api : String
  replacement_api : String
  deprecated_in_version : String
  removed_in_version : String
  kind : String
  severity : String
  migration_notes : String
  strategy : String := "NONE"
deriving Repr, DecidableEq

/-- The static table `DEPRECATED_APIS`, keyed by `(apiVersion, kind)`. -/
def DEPRECATED_APIS : List ((String × String) × DeprecationInfo) :=
  [ (("extensions/v1beta1", "Deployment"),
      ⟨"extensions/v1beta1", "apps/v1", "1.9", "1.16", "Deployment", "REMOVED",
       "Change apiVersion to apps/v1 and ensure selector is specified.",
       "DEPLOYMENT_SELECTOR"⟩),
    (("extensions/v1beta1", "DaemonSet"),
      ⟨"extensions/v1beta1", "apps/v1", "1.9", "1.16", "DaemonSet", "REMOVED",
       "Change apiVersion to apps/v1.", "REPLACE_API_VERSION"⟩),
    (("extensions/v1beta1", "ReplicaSet"),
      ⟨"extensions/v1beta1", "apps/v1", "1.9", "1.16", "ReplicaSet", "REMOVED",
       "Change apiVersion to apps/v1.", "REPLACE_API_VERSION"⟩),
    (("extensions/v1beta1", "NetworkPolicy"),
      ⟨"extensions/v1beta1", "networking.k8s.io/v1", "1.7", "1.16", "NetworkPolicy",
       "REMOVED", "Change apiVersion to networking.k8s.io/v1.", "REPLACE_API_VERSION"⟩),
    (("networking.k8s.io/v1beta1", "Ingress"),
      ⟨"networking.k8s.io/v1beta1", "networking.k8s.io/v1", "1.19", "1.22", "Ingress",
       "REMOVED", "pathType is required in v1.", "INGRESS_V1"⟩),
    (("admissionregistration.k8s.io/v1beta1", "ValidatingWebhookConfiguration"),
      ⟨"admissionregistration.k8s.io/v1beta1", "admissionregistration.k8s.io/v1",
       "1.16", "1.22", "ValidatingWebhookConfiguration", "REMOVED",
       "Update apiVersion only.", "REPLACE_API_VERSION"⟩),
    (("admissionregistration.k8s.io/v1beta1", "MutatingWebhookConfiguration"),
      ⟨"admissionregistration.k8s.io/v1beta1", "admissionregistration.k8s.io/v1",
       "1.16", "1.22", "MutatingWebhookConfiguration", "REMOVED",
       "Update apiVersion only.", "REPLACE_API_VERSION"⟩),
    (("apiextensions.k8s.io/v1beta1", "CustomResourceDefinition"),
      ⟨"apiextensions.k8s.io/v1beta1", "apiextensions.k8s.io/v1", "1.16", "1.22",
       "CustomResourceDefinition", "REMOVED", "Structural schema required in v1.",
       "REPLACE_API_VERSION"⟩),
    (("batch/v1beta1", "CronJob"),
      ⟨"batch/v1beta1", "batch/v1", "1.21", "1.25", "CronJob", "REMOVED",
       "Change apiVersion to batch/v1.", "CRONJOB_V1"⟩),
    (("policy/v1beta1", "PodSecurityPolicy"),
      ⟨"policy/v1beta1", "N/A", "1.21", "1.25", "PodSecurityPolicy", "REMOVED",
       "Migrate to Pod Security Standards (PSS).", "NONE"⟩),
    (("policy/v1beta1", "PodDisruptionBudget"),
      ⟨"policy/v1beta1", "policy/v1", "1.21", "1.25", "PodDisruptionBudget", "REMOVED",
       "Update apiVersion to policy/v1.", "REPLACE_API_VERSION"⟩),
    (("node.k8s.io/v1beta1", "RuntimeClass"),
      ⟨"node.k8s.io/v1beta1", "node.k8s.io/v1", "1.20", "1.25", "RuntimeClass",
       "REMOVED", "Change apiVersion to node.k8s.io/v1.", "REPLACE_API_VERSION"⟩),
    (("autoscaling/v2beta2", "HorizontalPodAutoscaler"),
      ⟨"autoscaling/v2beta2", "autoscaling/v2", "1.23", "1.26",
       "HorizontalPodAutoscaler", "REMOVED", "Change apiVersion to autoscaling/v2.",
       "REPLACE_API_VERSION"⟩),
    (("storage.k8s.io/v1beta1", "CSIStorageCapacity"),
      ⟨"storage.k8s.io/v1beta1", "storage.k8s.io/v1", "1.24", "1.27",
       "CSIStorageCapacity", "REMOVED", "Change apiVersion to storage.k8s.io/v1.",
       "REPLACE_API_VERSION"⟩),
    (("flowcontrol.apiserver.k8s.io/v1beta3", "FlowSchema"),
      ⟨"flowcontrol.apiserver.k8s.io/v1beta3", "flowcontrol.apiserver.k8s.io/v1",
       "1.26", "1.29", "FlowSchema", "REMOVED", "Change apiVersion to v1.",
       "REPLACE_API_VERSION"⟩),
    (("flowcontrol.apiserver.k8s.io/v1beta3", "PriorityLevelConfiguration"),
      ⟨"flowcontrol.apiserver.k8s.io/v1beta3", "flowcontrol.apiserver.k8s.io/v1",
       "1.26", "1.29", "PriorityLevelConfiguration", "REMOVED",
       "Change apiVersion to v1.", "REPLACE_API_VERSION"⟩) ]

/-- `DeprecationChecker.check`: table lookup by `(apiVersion, kind)`. -/
def checker_check (api_version kind : String) : Option DeprecationInfo :=
  (DEPRECATED_APIS.find? (fun e => e.1 = (api_version, kind))).map (·.2)

mutual

/-- Digit groups separated by single underscores, as Python's decimal
`int()`/`float()` literals allow: a digit followed by the tail grammar. -/
def pyIntDigits : List Char → Bool
  | [] => false
  | c :: rest => c.isDigit && pyIntTail rest

/-- Tail of a digit group: empty, an underscore that must be followed by
another digit group, or a further digit. -/
def pyIntTail : List Char → Bool
  | [] => true
  | c :: rest =>
      if c = '_' then pyIntDigits rest
      else c.isDigit && pyIntTail rest

end

/-- Strip underscores from a digit group before numeric interpretation. -/
def dropUnderscores (cs : List Char) : List Char :=
  cs.filter (· ≠ '_')

/-- Numeric value of a digit list (most significant first). -/
def digitsToNat (cs : List Char) : Nat :=
  cs.foldl (fun acc c => acc * 10 + (c.toNat - '0'.toNat)) 0

/-- Drop surrounding whitespace of a character list (`str.strip()`);
defined before the trimming helpers of the lexer section so the numeric
parsers can use it. -/
def trimChars (cs : List Char) : List Char :=
  ((cs.dropWhile Char.isWhitespace).reverse.dropWhile Char.isWhitespace).reverse

/-- Python `int(s)`, returning `none` where CPython raises `ValueError`. -/
def pyInt (s : String) : Option Int :=
  match trimChars s.data with
  | [] => none
  | c :: rest =>
      if c = '-' then
        if pyIntDigits rest then some (-(digitsToNat (dropUnderscores rest) : Int))
        else none
      else if c = '+' then
        if pyIntDigits rest then some (digitsToNat (dropUnderscores rest) : Int)
        else none
      else if pyIntDigits (c :: rest) then
        some (digitsToNat (dropUnderscores (c :: rest)) : Int)
      else none

/-- Python `s.split(sep)` on characters. -/
def splitChar (sep : Char) : List Char → List (List Char)
  | [] => [[]]
  | c :: rest =>
      if c = sep then [] :: splitChar sep rest
      else
        match splitChar sep rest with
        | [] => [[c]]
        | g :: gs => (c :: g) :: gs

/-- `DeprecationChecker._compare_versions`: strip `v` prefixes and `+`
suffixes, parse `major.minor` with Python `int`, compare major then minor;
any parse failure (ValueError/IndexError) yields 0. -/
def compare_versions (v1 v2 : String) : Int :=
  let clean := fun (v : String) =>
    ((v.data.dropWhile (· = 'v')).reverse.dropWhile (· = '+')).reverse
  let parts := fun (v : String) =>
    match (splitChar '.' (clean v)).take 2 with
    | [a, b] => match pyInt (String.mk a), pyInt (String.mk b) with
      | some x, some y => some (x, y)
      | _, _ => none
    | _ => none
  match parts v1, parts v2 with
  | some (a1, b1), some (a2, b2) =>
      if a1 ≠ a2 then (if a1 > a2 then 1 else -1)
      else if b1 ≠ b2 then (if b1 > b2 then 1 else -1)
      else 0
  | _, _ => 0

/-- `DeprecationChecker.is_removed`: the keyed API is in the table and its
`removed_in_version` is at or before `target_version`. -/
def is_removed (api_version kind target_version : String) : Bool :=
  match checker_check api_version kind with
  | none => false
  | some info => compare_versions target_version info.removed_in_version ≥ 0

/-! ## Migration engine, value semantics (`src/yamlr/core/migrator.py`)

`copy.deepcopy` is the identity on values, so the value-level model works
on the copy directly; the frame property of the in-place mutations is
proved separately on the explicit heap model further below.  Python
exceptions raised inside the strategy `try` block are modelled by
`Except String`. -/

/-- `MigrationEngine._replace_api_version`. -/
def replace_api_version (doc : YMap) (new_version : String) : YMap :=
  ymSet doc "apiVersion" (.str new_version)

/-- Python attribute access `x.get(...)` on a value that must be a dict;
any other receiver raises `AttributeError`. -/
def asMapGetD (v : Yaml) (k : String) (dflt : Yaml) : Except String Yaml :=
  match v with
  | .map m => .ok (ymGetD m k dflt)
  | _ => .error "AttributeError"

/-- `spec.get("template", {}).get("metadata", {}).get("labels", {})`. -/
def templateLabels (spec : Yaml) : Except String Yaml := do
  let t ← asMapGetD spec "template" (.map [])
  let md ← asMapGetD t "metadata" (.map [])
  asMapGetD md "labels" (.map [])

/-- `MigrationEngine._fix_deployment_selector`, on the working copy.
Returns the updated document and the Python boolean result; the
`apiVersion` swap happens before the selector check, exactly as in the
source.  Python `"selector" not in spec` is containment in dict keys when
`spec` is a dict, substring search when it is a string, element equality
when a list, and a `TypeError` otherwise. -/
def fix_deployment_selector (doc0 : YMap) (new_version : String) :
    Except String (YMap × Bool) := do
  let doc := replace_api_version doc0 new_version
  let spec := ymGetD doc "spec" (.map [])
  match spec with
  | .map m =>
      if ymHas m "selector" then
        .ok (doc, true)
      else do
        let labels ← templateLabels spec
        if labels.truthy then
          let m2 := ymSet m "selector" (.map [("matchLabels", labels)])
          .ok (ymSet doc "spec" (.map m2), true)
        else
          .ok (doc, false)
  | .str s =>
      if pyInStr "selector" s then .ok (doc, true)
      else .error "AttributeError"
  | .seq xs =>
      if xs.any (fun y => match y with | .str t => t = "selector" | _ => false) then
        .ok (doc, true)
      else .error "AttributeError"
  | _ => .error "TypeError"

/-- Python `"pathType" not in path` together with the subsequent item
assignment: a dict is updated when the key is absent; a string or list
either already "contains" the key (no write) or raises `TypeError` on
item assignment; other receivers raise `TypeError` on the membership
test itself. -/
def setPathType (path : Yaml) : Except String Yaml :=
  match path with
  | .map m =>
      if ymHas m "pathType" then .ok path
      else .ok (.map (ymSet m "pathType" (.str "ImplementationSpecific")))
  | .str s =>
      if pyInStr "pathType" s then .ok path else .error "TypeError"
  | .seq xs =>
      if xs.any (fun y => match y with | .str t => t = "pathType" | _ => false) then
        .ok path
      else .error "TypeError"
  | _ => .error "TypeError"

/-- One rule of `_fix_ingress_v1`: `rule.get("http", {})` then patch every
entry of `http.get("paths", [])`. -/
def fixIngressRule (rule : Yaml) : Except String Yaml := do
  let http ← asMapGetD rule "http" (.map [])
  let paths ← asMapGetD http "paths" (.seq [])
  match http, paths with
  | .map hm, .seq ps => do
      let ps' ← ps.mapM setPathType
      match rule with
      | .map rm =>
          if ymHas rm "http" then
            .ok (.map (ymSet rm "http" (.map (ymSet hm "paths" (.seq ps')))))
          else
            .ok rule
      | _ => .ok rule
  | _, _ =>
      -- `paths` not a list: the Python `for` raises `TypeError` unless it
      -- is a string or dict; iteration over those never assigns items
      -- without raising either.  All such receivers fail.
      match paths with
      | .seq _ => .ok rule
      | _ => .error "TypeError"

/-- `MigrationEngine._fix_ingress_v1` on the working copy; always reports
success (`True`) when no exception is raised. -/
def fix_ingress_v1 (doc0 : YMap) (new_version : String) :
    Except String (YMap × Bool) := do
  let doc := replace_api_version doc0 new_version
  let spec := ymGetD doc "spec" (.map [])
  let rules ← asMapGetD spec "rules" (.seq [])
  match spec, rules with
  | .map sm, .seq rs => do
      let rs' ← rs.mapM fixIngressRule
      if ymHas doc "spec" then
        .ok (ymSet doc "spec" (.map (ymSet sm "rules" (.seq rs'))), true)
      else
        .ok (doc, true)
  | .map _, _ =>
      -- iterating a non-list `rules` raises unless it is a string or dict
      -- with no patched entries; model the failing receivers uniformly.
      match rules with
      | .str _ => .error "AttributeError"
      | .map _ => .error "AttributeError"
      | _ => .error "TypeError"
  | _, _ => .error "AttributeError"

/-- `new_doc['metadata'].get('name')`, as read inside the audit f-strings:
`KeyError` when the key is missing, `AttributeError` when the value is not
a dict, otherwise the `str()` rendering of the name (or `None`). -/
def metadataName (doc : YMap) : Except String String :=
  match ymGet doc "metadata" with
  | none => .error "KeyError"
  | some (.map m) => .ok (pyStr (ymGetD m "name" .null))
  | some _ => .error "AttributeError"

/-- Audit line `MIGRATED: {kind}/{name} from {api} to {replacement}`. -/
def migratedLine (kind name api repl suffix : String) : String :=
  "MIGRATED: " ++ kind ++ "/" ++ name ++ " from " ++ api ++ " to " ++ repl ++ suffix

/-- The body of the strategy `try` block of `MigrationEngine.migrate`,
returning the updated document and audit lines, or the exception text. -/
def runStrategy (info : DeprecationInfo) (new_doc : YMap)
    (api_version kind : Yaml) : Except String (YMap × List String) := do
  if info.strategy = "REPLACE_API_VERSION" then
    let d := replace_api_version new_doc info.replacement_api
    let nm ← metadataName d
    .ok (d, [migratedLine (pyStr kind) nm (pyStr api_version) info.replacement_api ""])
  else if info.strategy = "DEPLOYMENT_SELECTOR" then
    let (d, okFix) ← fix_deployment_selector new_doc info.replacement_api
    if okFix then
      let nm ← metadataName d
      .ok (d, [migratedLine (pyStr kind) nm (pyStr api_version) info.replacement_api
                " (Added Selector)"])
    else
      .ok (d, [])
  else if info.strategy = "INGRESS_V1" then
    let (d, okFix) ← fix_ingress_v1 new_doc info.replacement_api
    if okFix then
      let nm ← metadataName d
      .ok (d, [migratedLine (pyStr kind) nm (pyStr api_version) info.replacement_api
                " (Updated Ingress Structure)"])
    else
      .ok (d, [])
  else if info.strategy = "CRONJOB_V1" then
    let d := replace_api_version new_doc info.replacement_api
    let nm ← metadataName d
    .ok (d, [migratedLine (pyStr kind) nm (pyStr api_version) info.replacement_api ""])
  else
    .ok (new_doc, [])

/-- Table lookup with the document's raw values: Python `dict.get` with a
tuple key only matches when both components are equal strings. -/
def lookupDep (api_version kind : Yaml) : Option DeprecationInfo :=
  match api_version, kind with
  | .str a, .str k => checker_check a k
  | _, _ => none

/-- `DeprecationChecker.is_removed` as called with raw document values. -/
def is_removed_raw (api_version kind : Yaml) (target : String) : Bool :=
  match lookupDep api_version kind with
  | none => false
  | some info => compare_versions target info.removed_in_version ≥ 0

/-- `MigrationEngine.migrate`, value semantics.  The deep copy is the
identity on values; the exception handler returns the original document
with a `MIGRATED_FAILED` audit line. -/
def migrate (target_version : String) (doc : YMap) : YMap × List String :=
  let new_doc := doc
  let api_version := ymGetD new_doc "apiVersion" (.str "")
  let kind := ymGetD new_doc "kind" (.str "")
  if !api_version.truthy || !kind.truthy then (new_doc, [])
  else if !is_removed_raw api_version kind target_version then (new_doc, [])
  else
    match lookupDep api_version kind with
    | none => (new_doc, [])
    | some info =>
        if info.strategy = "NONE" then (new_doc, [])
        else
          match runStrategy info new_doc api_version kind with
          | .ok (d, audit) => (d, audit)
          | .error e =>
              (doc, ["MIGRATED_FAILED: Could not migrate " ++ pyStr kind ++ " - " ++ e])

/-- Python hashability of the modelled values: dicts and lists are
unhashable, every scalar is hashable. -/
def yamlHashable : Yaml → Bool
  | .seq _ => false
  | .map _ => false
  | _ => true

/-- `MigrationEngine.migrate` with its uncaught error path.  When a
*truthy* `apiVersion` or `kind` is an unhashable dict or list, the tuple
lookup `DEPRECATED_APIS.get((api_version, kind))` inside
`DeprecationChecker.check` — reached through `is_removed` before the
strategy `try` begins — raises `TypeError`, and `migrate` propagates it
to the caller.  On documents that pass the truthiness guard with
hashable values (and on falsy ones, returned by the guard itself) the
behaviour is that of `migrate`. -/
def migrateE (target_version : String) (doc : YMap) :
    Except String (YMap × List String) :=
  let api_version := ymGetD doc "apiVersion" (.str "")
  let kind := ymGetD doc "kind" (.str "")
  if api_version.truthy && kind.truthy &&
      !(yamlHashable api_version && yamlHashable kind) then
    .error "TypeError: unhashable type"
  else
    .ok (migrate target_version doc)

/-! ## Analyzer interface (`src/kubecuro/analyzers/base.py`) -/

/-- The dataclass `AnalysisResult`.  Resource names flowing in from
documents are rendered with Python `str()` semantics (`None` prints as
`"None"`); the sources only ever store strings there in practice. -/
structure AnalysisResult where
  analyzer_name : String
  severity : String
  message : String
  resource_name : String
  resource_kind : String
  file_path : String
  rule_id : Option String := none
  line_number : Option Int := none
  suggestion : Option String := none
  fix_available : Bool := false
  fix_id : Option String := none
deriving Repr, DecidableEq

/-! ## ImageAnalyzer (`src/yamlr/analyzers/best_practices.py`)

In the source, the statement `containers = self._get_containers(resource)`
and everything after it sit at the *method* indentation level, outside the
`for resource in resources:` loop whose body is only the `kind` filter.
The loop therefore only leaves `resource` bound to the last list element
(and raises `NameError` on an empty list); the container scan runs once,
on that last element.  The embedding reproduces this control flow. -/

/-- Python attribute call `r.get(k, dflt)` raising `AttributeError` when
the receiver is not a dict (same as `asMapGetD`, kept for the analyzer
section's readability). -/
def pyGetAttr (r : Yaml) (k : String) (dflt : Yaml) : Except String Yaml :=
  asMapGetD r k dflt

/-- Python `y == s` between an arbitrary value and a string literal. -/
def yamlStrEq (y : Yaml) (s : String) : Bool :=
  match y with
  | .str t => t = s
  | _ => false

/-- `ImageAnalyzer._get_containers`. -/
def image_get_containers (resource : Yaml) : Except String Yaml := do
  let kind ← pyGetAttr resource "kind" .null
  if yamlStrEq kind "Pod" then do
    let spec ← pyGetAttr resource "spec" (.map [])
    asMapGetD spec "containers" (.seq [])
  else do
    let spec ← pyGetAttr resource "spec" (.map [])
    let tmpl ← asMapGetD spec "template" (.map [])
    let pspec ← asMapGetD tmpl "spec" (.map [])
    asMapGetD pspec "containers" (.seq [])

/-- `resource.get("metadata", {}).get("name", "unknown")` rendered with
`str()` semantics. -/
def resourceName (resource : Yaml) : Except String String := do
  let md ← pyGetAttr resource "metadata" (.map [])
  let nm ← asMapGetD md "name" (.str "unknown")
  .ok (pyStr nm)

/-- `resource.get("kind", "unknown")` rendered with `str()` semantics. -/
def resourceKind (resource : Yaml) : Except String String := do
  let k ← pyGetAttr resource "kind" (.str "unknown")
  .ok (pyStr k)

/-- Python `s.endswith(t)`. -/
def pyEndsWith (s t : String) : Bool :=
  t.data.isSuffixOf s.data

/-- The container check of `ImageAnalyzer.analyze` for one container:
skip falsy images, flag a missing `':'` or a `':latest'` suffix.  A truthy
non-string image raises (`in` / `endswith` on an unsupported receiver). -/
def imageContainerFindings (resource : Yaml) (container : Yaml) :
    Except String (List AnalysisResult) := do
  let image ← pyGetAttr container "image" (.str "")
  if !image.truthy then .ok []
  else
    match image with
    | .str s =>
        if !pyInStr ":" s || pyEndsWith s ":latest" then do
          let rn ← resourceName resource
          let rk ← resourceKind resource
          .ok [{ analyzer_name := "image-tag-check"
                 rule_id := some "images/no-latest"
                 severity := "error"
                 message := "Container uses '" ++ s ++ "'. Do not use ':latest' tag in production."
                 resource_name := rn
                 resource_kind := rk
                 file_path := "unknown"
                 line_number := some 0 }]
        else .ok []
    | _ => .error "TypeError"

/-- `ImageAnalyzer.analyze`.  The loop body is only the kind filter (each
iteration re-evaluates `resource.get("kind", "")`, raising on non-dict
elements); the container scan then runs once on the final value of
`resource`, i.e. the last list element. -/
def image_analyze (resources : List Yaml) : Except String (List AnalysisResult) := do
  let _ ← resources.mapM (fun r => pyGetAttr r "kind" (.str ""))
  match resources.getLast? with
  | none => .error "NameError"
  | some resource => do
      let containers ← image_get_containers resource
      match containers with
      | .seq cs => do
          let findingLists ← cs.mapM (imageContainerFindings resource)
          .ok findingLists.flatten
      | _ => .error "TypeError"

/-! ## CrossResourceAnalyzer (`src/yamlr/analyzers/cross_resource.py`)

`difflib.SequenceMatcher(None, a, b).ratio()` is external library code;
it enters the embedding as an explicit parameter `ratio`, and every
statement quantifies over it (or fixes one concrete instance). -/

/-- The identity record used by the cross-resource analyzer
(`ManifestIdentity`; the `yamlr.models` module is a field-for-field
sibling of `src/kubecuro/models.py` extended with the port and ingress
reference fields the analyzer reads, per spec section 3).  `file_path`
is absent on the dataclass and only ever set dynamically, so the
analyzer's `getattr(x, 'file_path', 'unknown')` is modelled through an
optional field. -/
structure ManifestIdentity where
  api_version : Option String := none
  kind : Option String := none
  name : Option String := none
  nspace : Option String := none
  selector : Option (List (String × String)) := none
  labels : Option (List (String × String)) := none
  config_refs : List String := []
  volume_refs : List String := []
  service_refs : List String := []
  service_ports : List YMap := []
  container_ports : List Yaml := []
  ingress_backends : List YMap := []
  scale_target : Option String := none
  service_account : Option String := none
  file_path : Option String := none
deriving Repr

/-- Python `identity.namespace or "default"`. -/
def nsOrDefault (ns : Option String) : String :=
  match ns with
  | some s => if s = "" then "default" else s
  | none => "default"

/-- Python `x.name` rendered inside an f-string. -/
def optStr (o : Option String) : String := o.getD "None"

/-- Python `getattr(x, 'file_path', 'unknown')`. -/
def filePathOf (i : ManifestIdentity) : String := i.file_path.getD "unknown"

/-- Truthiness of the optional label/selector dictionaries (`None` and
`{}` are falsy). -/
def dictTruthy (d : Option (List (String × String))) : Bool :=
  match d with
  | none => false
  | some kvs => !kvs.isEmpty

/-- Lookup in a string dictionary. -/
def sdGet (d : List (String × String)) (k : String) : Option String :=
  (d.find? (fun kv => kv.1 = k)).map (·.2)

/-- `CrossResourceAnalyzer._labels_match`: every selector entry must be
present in the labels with `str(x).strip()`-normalized equality. -/
def labels_match (selector labels : List (String × String)) : Bool :=
  selector.all (fun kv =>
    match sdGet labels kv.1 with
    | none => false
    | some target => target.trim = kv.2.trim)

/-- A typo-match candidate produced by `_find_typo_matches`. -/
structure TypoCandidate where
  name : Option String
  kind : Option String
  score : ℚ
  labels : List (String × String)
deriving Repr

/-- Part 1 of `_find_typo_matches` for one workload: all selector keys
present, average value similarity strictly between 0.75 and 1.0. -/
def typoPart1 (ratio : String → String → ℚ) (selector labels : List (String × String)) :
    Option ℚ :=
  if selector.all (fun kv => (sdGet labels kv.1).isSome) then
    let similarity := (selector.map (fun kv =>
      ratio kv.2 ((sdGet labels kv.1).getD ""))).sum
    let avg := similarity / selector.length
    if avg > 75/100 ∧ avg < 1 then some avg else none
  else none

/-- Part 2 of `_find_typo_matches` for one workload: every selector item
`k=v` has some label item `wk=wv` with `ratio("k=v", "wk=wv") > 0.85`. -/
def typoPart2 (ratio : String → String → ℚ) (selector labels : List (String × String)) :
    Bool :=
  selector.all (fun kv =>
    labels.any (fun wkv =>
      ratio (kv.1 ++ "=" ++ kv.2) (wkv.1 ++ "=" ++ wkv.2) > 85/100))

/-- `CrossResourceAnalyzer._find_typo_matches`: collect candidates per
workload (part 1 short-circuits part 2 only when it yields a candidate),
then sort by score descending (Python's stable `sorted`). -/
def find_typo_matches (ratio : String → String → ℚ)
    (selector : List (String × String)) (workloads : List ManifestIdentity) :
    List TypoCandidate :=
  let candidates := workloads.foldr (fun w acc =>
    match w.labels with
    | none => acc
    | some ls =>
        if ls.isEmpty then acc
        else
          match typoPart1 ratio selector ls with
          | some avg => ⟨w.name, w.kind, avg, ls⟩ :: acc
          | none =>
              if typoPart2 ratio selector ls then
                ⟨w.name, w.kind, 9/10, ls⟩ :: acc
              else acc) []
  candidates.mergeSort (fun a b => b.score ≤ a.score)

/-- `CrossResourceAnalyzer._generate_ghost_service_hint`. -/
def ghost_service_hint (pro_mode : Bool) (selector : List (String × String)) : String :=
  let selector_yaml := String.intercalate "\n        "
    (selector.map (fun kv => kv.1 ++ ": " ++ kv.2))
  let hint := "Add a Deployment with matching labels:\n    spec:\n      template:\n        metadata:\n          labels:\n            " ++ selector_yaml
  if pro_mode then hint ++ "\n    (Pro mode will auto-generate this in future release)"
  else hint

/-- The "did-you-mean" message fragments built from the best typo
candidate inside `_detect_ghost_services`. -/
def typoDiffMsgs (ratio : String → String → ℚ)
    (selector : List (String × String)) (best : TypoCandidate) : List String :=
  selector.foldr (fun kv acc =>
    match sdGet best.labels kv.1 with
    | some mv =>
        if mv ≠ "" ∧ mv ≠ kv.2 then ("'" ++ kv.1 ++ ": " ++ mv ++ "'") :: acc
        else acc
    | none =>
        match best.labels.find? (fun wkv => ratio kv.1 wkv.1 > 8/10) with
        | some ck => ("'" ++ ck.1 ++ ": " ++ ck.2 ++ "'") :: acc
        | none => acc) []

/-- A detected ghost service (the dict appended by
`_detect_ghost_services`). -/
structure GhostService where
  name : Option String
  nspace : String
  hint : String
  file_path : String
deriving Repr

/-- `CrossResourceAnalyzer._detect_ghost_services`. -/
def detect_ghost_services (ratio : String → String → ℚ) (pro_mode : Bool)
    (services workloads : List ManifestIdentity) : List GhostService :=
  services.foldr (fun service acc =>
    if !dictTruthy service.selector then acc
    else
      let sel := service.selector.getD []
      let matching := workloads.filter (fun w =>
        nsOrDefault service.nspace = nsOrDefault w.nspace ∧
        dictTruthy w.labels ∧ labels_match sel (w.labels.getD []))
      if !matching.isEmpty then acc
      else
        let hint0 := ghost_service_hint pro_mode sel
        let found_in_other_ns := (workloads.filter (fun w =>
          dictTruthy w.labels ∧ labels_match sel (w.labels.getD []))).map
            (fun w => optStr w.kind ++ "/" ++ optStr w.name ++ " (" ++
              nsOrDefault w.nspace ++ ")")
        let hint :=
          if !found_in_other_ns.isEmpty then
            hint0 ++ "\n\n    ⚠️ Found matching workloads in other namespaces: " ++
              String.intercalate ", " found_in_other_ns
          else
            match find_typo_matches ratio sel workloads with
            | [] => hint0
            | best :: _ =>
                let diffs := typoDiffMsgs ratio sel best
                if diffs.isEmpty then hint0
                else hint0 ++ "\n\n    💡 Did you mean: " ++
                  String.intercalate ", " diffs ++ "? (Found in " ++
                  optStr best.kind ++ "/" ++ optStr best.name ++ ")"
        ⟨service.name, nsOrDefault service.nspace, hint, filePathOf service⟩ :: acc)
    []

/-- An orphaned ConfigMap/Secret record from `_detect_orphan_configs`. -/
structure OrphanConfig where
  kind : Option String
  name : Option String
  nspace : String
  file_path : String
deriving Repr

/-- `CrossResourceAnalyzer._detect_orphan_configs`. -/
def detect_orphan_configs (configs workloads : List ManifestIdentity) :
    List OrphanConfig :=
  configs.foldr (fun config acc =>
    let referencing := workloads.filter (fun w =>
      match config.name with
      | some n => w.config_refs.contains n
      | none => false)
    if referencing.isEmpty then
      ⟨config.kind, config.name, nsOrDefault config.nspace, filePathOf config⟩ :: acc
    else acc) []

/-- A broken PVC reference record from `_detect_broken_volumes`. -/
structure BrokenVolume where
  workload_kind : Option String
  workload_name : Option String
  missing_pvc : String
  nspace : String
  file_path : String
deriving Repr

/-- `CrossResourceAnalyzer._detect_broken_volumes`: the reference is
checked against the names of *all* PVC identities (`pvc_names` carries no
namespace). -/
def detect_broken_volumes (workloads pvcs : List ManifestIdentity) :
    List BrokenVolume :=
  let pvc_names := pvcs.filterMap (·.name)
  workloads.foldr (fun workload acc =>
    (workload.volume_refs.filterMap (fun pvc_ref =>
      if pvc_names.contains pvc_ref then none
      else some (⟨workload.kind, workload.name, pvc_ref,
        nsOrDefault workload.nspace, filePathOf workload⟩ : BrokenVolume)))
      ++ acc) []

/-- A service-port mismatch from `_validate_service_ports`. -/
structure PortMismatch where
  service_name : Option String
  message : String
  fix : String
  file_path : String
deriving Repr

/-- `CrossResourceAnalyzer._validate_service_ports`. -/
def validate_service_ports (services workloads : List ManifestIdentity) :
    List PortMismatch :=
  services.foldr (fun service acc =>
    if !dictTruthy service.selector ∨ service.service_ports.isEmpty then acc
    else
      let sel := service.selector.getD []
      let matched := workloads.filter (fun w =>
        nsOrDefault service.nspace = nsOrDefault w.nspace ∧
        dictTruthy w.labels ∧ labels_match sel (w.labels.getD []))
      if matched.isEmpty then acc
      else
        (matched.foldr (fun workload acc2 =>
          if workload.container_ports.isEmpty then acc2
          else
            let w_ports_str := workload.container_ports.map pyStr
            (service.service_ports.filterMap (fun s_port =>
              let target := ymGetD s_port "targetPort" (ymGetD s_port "port" .null)
              if !target.truthy then none
              else if w_ports_str.contains (pyStr target) then none
              else some
                (⟨service.name,
                  "Service port targets '" ++ pyStr target ++ "', but workload '" ++
                    optStr workload.name ++ "' does not expose it.",
                  "Add containerPort: " ++ pyStr target ++ " to Deployment '" ++
                    optStr workload.name ++ "'.",
                  filePathOf service⟩ : PortMismatch))) ++ acc2) []) ++ acc) []

/-- An ingress backend issue record from `_validate_ingress_backends`. -/
structure IngressIssue where
  ingress_name : Option String
  message : String
  fix : String
  file_path : String
deriving Repr

/-- The check for one ingress backend inside
`_validate_ingress_backends`. -/
def ingressBackendIssue (services : List ManifestIdentity)
    (ingress : ManifestIdentity) (backend : YMap) : Option IngressIssue :=
  let svc_name := ymGetD backend "service" .null
  let svc_port := ymGetD backend "port" .null
  if !svc_name.truthy then none
  else
    let ing_ns := nsOrDefault ingress.nspace
    match services.find? (fun s =>
        (match svc_name with
         | .str t => s.name == some t
         | _ => false) && nsOrDefault s.nspace == ing_ns) with
    | none =>
        some ⟨ingress.name,
          "Ingress references missing Service '" ++ pyStr svc_name ++ "'.",
          "Ensure Service exists in the same namespace.",
          filePathOf ingress⟩
    | some m =>
        if !svc_port.truthy then none
        else
          let valid_ports := m.service_ports.foldr (fun sp acc =>
            (if (ymGetD sp "port" .null).truthy then [pyStr (ymGetD sp "port" .null)] else []) ++
            (if (ymGetD sp "name" .null).truthy then [pyStr (ymGetD sp "name" .null)] else []) ++ acc) []
          if valid_ports.contains (pyStr svc_port) then none
          else
            some ⟨ingress.name,
              "Ingress references port '" ++ pyStr svc_port ++ "' on Service '" ++
                pyStr svc_name ++ "', which exposes: " ++
                String.intercalate ", " valid_ports ++ ".",
              "Update Ingress to use one of: " ++ String.intercalate ", " valid_ports,
              filePathOf ingress⟩

/-- `CrossResourceAnalyzer._validate_ingress_backends`. -/
def validate_ingress_backends (ingresses services : List ManifestIdentity) :
    List IngressIssue :=
  ingresses.foldr (fun ingress acc =>
    if ingress.ingress_backends.isEmpty then acc
    else
      (ingress.ingress_backends.filterMap (ingressBackendIssue services ingress)) ++ acc)
    []

/-- `CrossResourceAnalyzer.analyze`: build the per-kind indexes, run the
five detectors, convert their records to `AnalysisResult`s in source
order.  The ingress severity check is the source's literal
`"ERROR" if "Missing" in issue["message"] else "WARNING"`. -/
def cross_analyze (ratio : String → String → ℚ) (pro_mode : Bool)
    (identities : List ManifestIdentity) : List AnalysisResult :=
  let services := identities.filter (fun i => i.kind = some "Service")
  let workloads := identities.filter (fun i =>
    i.kind = some "Deployment" ∨ i.kind = some "StatefulSet" ∨
    i.kind = some "DaemonSet" ∨ i.kind = some "Pod")
  let configs := identities.filter (fun i =>
    i.kind = some "ConfigMap" ∨ i.kind = some "Secret")
  let pvcs := identities.filter (fun i => i.kind = some "PersistentVolumeClaim")
  let ingresses := identities.filter (fun i => i.kind = some "Ingress")
  let ghost_services := detect_ghost_services ratio pro_mode services workloads
  let orphan_configs := detect_orphan_configs configs workloads
  let broken_volumes := detect_broken_volumes workloads pvcs
  let port_mismatches := validate_service_ports services workloads
  let ingress_issues := validate_ingress_backends ingresses services
  (ghost_services.map (fun ghost =>
    { analyzer_name := "cross-resource-analyzer"
      severity := "WARNING"
      message := "Ghost Service detected: selector matches no Pods."
      resource_name := optStr ghost.name
      resource_kind := "Service"
      file_path := ghost.file_path
      suggestion := some ghost.hint
      fix_available := false })) ++
  (port_mismatches.map (fun pm =>
    { analyzer_name := "cross-resource-analyzer"
      severity := "ERROR"
      message := pm.message
      resource_name := optStr pm.service_name
      resource_kind := "Service"
      file_path := pm.file_path
      suggestion := some pm.fix
      fix_available := false })) ++
  (ingress_issues.map (fun issue =>
    { analyzer_name := "cross-resource-analyzer"
      severity := if pyInStr "Missing" issue.message then "ERROR" else "WARNING"
      message := issue.message
      resource_name := optStr issue.ingress_name
      resource_kind := "Ingress"
      file_path := issue.file_path
      suggestion := some issue.fix
      fix_available := false })) ++
  (orphan_configs.map (fun orphan =>
    { analyzer_name := "cross-resource-analyzer"
      severity := "WARNING"
      message := "Orphan " ++ optStr orphan.kind ++ " detected: not referenced by any workload."
      resource_name := optStr orphan.name
      resource_kind := optStr orphan.kind
      file_path := orphan.file_path
      suggestion := some "Remove if unused, or add a reference in a Pod spec."
      fix_available := false })) ++
  (broken_volumes.map (fun broken =>
    { analyzer_name := "cross-resource-analyzer"
      severity := "ERROR"
      message := "Broken Volume: references missing PVC '" ++ broken.missing_pvc ++ "'."
      resource_name := optStr broken.workload_name
      resource_kind := optStr broken.workload_kind
      file_path := broken.file_path
      suggestion := some ("Ensure PVC '" ++ broken.missing_pvc ++ "' exists in namespace '" ++
        broken.nspace ++ "'.")
      fix_available := false }))

/-! ## Lexer semantic extraction (`src/akeso/parsers/lexer.py`)

`AkesoLexer._extract_semantics` decomposes a repaired code line into
`(key, value, is_list_item)`.  The embedding works on `List Char` and
wraps the results as `String`s; the method's increment of
`self.repair_stats["quote_repairs"]` is returned as the `quote_repairs`
delta.  The single recursive call (anchor/alias/tag handling) shortens
its argument, so a fuel of `length + 1` can never run out. -/

/-- Drop leading whitespace (Python `lstrip()`). -/
def trimLeftC (cs : List Char) : List Char := cs.dropWhile Char.isWhitespace

/-- Drop trailing whitespace (Python `rstrip()`). -/
def trimRightC (cs : List Char) : List Char :=
  (cs.reverse.dropWhile Char.isWhitespace).reverse

/-- Python `strip()`. -/
def trimC (cs : List Char) : List Char := trimRightC (trimLeftC cs)

/-- Python `strip(chars)`: drop characters of the set from both ends. -/
def stripCharsC (chars : List Char) (cs : List Char) : List Char :=
  ((cs.dropWhile (chars.contains ·)).reverse.dropWhile (chars.contains ·)).reverse

/-- Split a list at the first element satisfying `p`: the part before,
and — when found — the part strictly after it. -/
def breakAtFirst (p : Char → Bool) : List Char → List Char × Option (List Char)
  | [] => ([], none)
  | c :: rest =>
      if p c then ([], some rest)
      else
        let (before, after) := breakAtFirst p rest
        (c :: before, after)

/-- Result record of `_extract_semantics` (plus the `quote_repairs`
statistics delta). -/
structure ExtractResult where
  key : String
  value : Option String
  is_list_item : Bool
  quote_repairs : Nat := 0
deriving Repr, DecidableEq

/-- The lowercased bare values protected against YAML 1.1 boolean
coercion. -/
def norwayWords : List (List Char) :=
  [['y','e','s'], ['n','o'], ['y'], ['n'], ['o','n'], ['o','f','f']]

/-- `AkesoLexer._extract_semantics`, on characters, with fuel bounding
the anchor-handling recursion (each recursive call strictly shortens the
input, so `length + 1` fuel always suffices). -/
def extractSemanticsAux : Nat → List Char → ExtractResult
  | 0, _ => ⟨"", none, false, 0⟩
  | fuel + 1, code =>
    let clean := trimC code
    if clean.isEmpty || (['-','-','-'].isPrefixOf clean) then ⟨"", none, false, 0⟩
    else if clean.head? = some '&' ∨ clean.head? = some '*' ∨ clean.head? = some '!' then
      -- anchors, aliases and tags: split the modifier off at the first
      -- whitespace, quote or opening bracket and re-extract the rest
      let split_pos :=
        match (clean.drop 1).findIdx? (fun c =>
          c.isWhitespace ∨ c = '"' ∨ c = '\'' ∨ c = '[' ∨ c = '\x7b') with
        | some i => i + 1
        | none => clean.length
      let modifier := clean.take split_pos
      let remaining := trimLeftC (clean.drop split_pos)
      let inner := extractSemanticsAux fuel remaining
      ⟨"", some (String.mk (trimC (modifier ++ ' ' :: ((inner.value.getD "").data)))),
        inner.is_list_item, inner.quote_repairs⟩
    else
      let is_list := clean.head? = some '-'
      let clean := if is_list then trimLeftC (clean.drop 1) else clean
      if is_list ∧ clean.isEmpty then ⟨"", some "", true, 0⟩
      else if clean.contains ':' then
        -- quoted keys, e.g. `"service.beta:8080": val`
        let quotedResult : Option ExtractResult :=
          match clean.head? with
          | some q =>
              if q = '"' ∨ q = '\'' then
                match (clean.drop 1).findIdx? (· = q) with
                | some i =>
                    let end_idx := i + 1
                    let afterQ := trimLeftC (clean.drop (end_idx + 1))
                    if afterQ.head? = some ':' then
                      let key := (clean.drop 1).take i
                      let val := trimC (afterQ.drop 1)
                      some ⟨String.mk key,
                        if val.isEmpty then none else some (String.mk val), is_list, 0⟩
                    else none
                | none => none
              else none
          | none => none
        match quotedResult with
        | some r => r
        | none =>
            let (key_part, val_opt) := breakAtFirst (· = ':') clean
            let val := trimC (val_opt.getD [])
            let protectedVal := norwayWords.contains (val.map Char.toLower)
            let val' := if protectedVal then '"' :: (val ++ ['"']) else val
            ⟨String.mk (stripCharsC ['"', '\''] (trimC key_part)),
              if val'.isEmpty then none else some (String.mk val'),
              is_list,
              if protectedVal then 1 else 0⟩
      else
        ⟨"", some (String.mk clean), is_list, 0⟩

/-- `AkesoLexer._extract_semantics` on a string. -/
def extract_semantics (code : String) : ExtractResult :=
  extractSemanticsAux (code.data.length + 1) code.data

/-! ## Structurer value cleaning (`src/yamlr/parsers/structurer.py`)

`_clean_value` and the keyed-scalar branch of `_build_tree`
(the `elif s_key:` arm at the end of the shard loop, which applies the
forced-array single-element wrap). -/

/-- Python `s.isalnum()`. -/
def pyIsAlnum (s : String) : Bool :=
  !s.data.isEmpty && s.data.all (fun c => c.isAlpha || c.isDigit)

/-- Python `s.isdigit()`. -/
def pyIsDigit (s : String) : Bool :=
  !s.data.isEmpty && s.data.all Char.isDigit

/-- The optional leading sign of a Python numeric literal.  (The
`pyFloatValid` grammar below models a decimal float literal — sign,
digit groups with single underscores, optional fraction dot, optional
exponent; the special `inf`/`nan` spellings never reach the float branch
of `_clean_value` because of its leading-character guard.) -/
def dropSignChar : List Char → List Char
  | [] => []
  | c :: r => if c = '+' ∨ c = '-' then r else c :: r

/-- Mantissa-and-exponent part of the float grammar, after the optional
leading sign. -/
def pyFloatCore (cs : List Char) : Bool :=
  let (mant, expPart) := breakAtFirst (fun c => c = 'e' ∨ c = 'E') cs
  let expOk := match expPart with
    | none => true
    | some e => pyIntDigits (dropSignChar e)
  let mantOk := match breakAtFirst (· = '.') mant with
    | (whole, none) => pyIntDigits whole
    | (whole, some frac) =>
        if whole.isEmpty then pyIntDigits frac
        else pyIntDigits whole && (frac.isEmpty || pyIntDigits frac)
  mantOk && expOk

def pyFloatValid (cs0 : List Char) : Bool := pyFloatCore (dropSignChar cs0)

/-- Python `float(s)`, keeping the accepted literal (no float arithmetic
is ever performed on the result). -/
def pyFloat (s : String) : Option String :=
  if pyFloatValid (trimChars s.data) then some s else none

/-- `val.strip().strip("'\"")`, the normalisation `_clean_value` applies
before typing a non-alphanumeric value. -/
def strippedOf (s : String) : String :=
  String.mk (stripCharsC ['\'', '"'] (trimC s.data))

/-- `YamlrStructurer._clean_value`. -/
def clean_value (val : Yaml) : Yaml :=
  match val with
  | .str s =>
      if pyIsAlnum s && !pyIsDigit s then
        let lower := s.data.map Char.toLower
        if lower = "true".data then .bool true
        else if lower = "false".data then .bool false
        else .str s
      else
        let v := strippedOf s
        let v_lower := v.data.map Char.toLower
        if v_lower = "true".data then .bool true
        else if v_lower = "false".data then .bool false
        else if v ≠ "" ∧ ((v.data.head?.map Char.isDigit).getD false ∨ v.data.head? = some '-') then
          if v.data.contains '.' then
            match pyFloat v with
            | some f => .float f
            | none => .str v
          else
            match pyInt v with
            | some n => .int n
            | none => .str v
        else .str v
  | other => other

/-- "Purely numeric with an optional leading `-`": the first character a
digit or a sign followed by more, every remaining character a digit or a
single decimal dot, and at least one digit (the claim's numeric-literal
class). -/
def pureNumericLit (s : String) : Bool :=
  match s.data with
  | [] => false
  | c :: rest =>
      (c.isDigit || (c = '-' && !rest.isEmpty)) &&
      (let body := if c = '-' then rest else c :: rest
       body.all (fun d => d.isDigit || d = '.') &&
       decide (body.count '.' ≤ 1) &&
       body.any (·.isDigit))

/-- The Kubernetes forced-array field set (`self.forced_arrays`). -/
def forced_arrays : List String :=
  ["containers", "initContainers", "ephemeralContainers",
   "ports", "env", "envFrom", "volumeMounts", "volumeDevices",
   "volumes", "args", "command", "imagePullSecrets",
   "tolerations", "nodeSelector", "hostAliases",
   "rules", "subjects", "roleRef", "paths", "hosts",
   "matchExpressions", "endpoints", "subsets",
   "addresses", "notReadyAddresses", "topologyKeys",
   "finalizers", "ownerReferences", "managedFields",
   "conditions", "taints", "apiGroups", "resources", "verbs"]

/-- Python `isinstance(x, list)` on the modelled values. -/
def isPyList : Yaml → Bool
  | .seq _ => true
  | _ => false

/-- The keyed-scalar arm of `_build_tree` (`elif s_key:`): clean the
value, wrap it in a single-element sequence when the key is a forced
array and the value is not already a list, and assign it into the parent
mapping. -/
def store_keyed_scalar (parent : YMap) (s_key : String) (s_val : Yaml) : YMap :=
  let val := clean_value s_val
  let val := if forced_arrays.contains s_key && !isPyList val then .seq [val] else val
  ymSet parent s_key val

/-! ## Heap model of `MigrationEngine.migrate` (frame property)

Python dictionaries and lists are mutable heap objects; scalars are
immutable values.  To state that `migrate` never mutates its argument,
the call is re-run on an explicit heap: nodes are addressed by `Nat`,
`copy.deepcopy` allocates a fresh subgraph, and every strategy rewrite is
an in-place store.  A well-formed heap (as produced by building documents
bottom-up) has every node pointing only to strictly smaller addresses. -/

/-- A heap node: an immutable scalar, a dict, or a list. -/
inductive HNode where
  | scalar : Yaml → HNode
  | dict : List (String × Nat) → HNode
  | list : List Nat → HNode
deriving Repr

/-- The heap: node `a` lives at index `a`. -/
abbrev Heap := List HNode

/-- Read a node (out-of-range reads a dummy scalar; never exercised on
well-formed inputs). -/
def getH (h : Heap) (a : Nat) : HNode := h.getD a (.scalar .null)

/-- Child addresses of a node. -/
def HNode.children : HNode → List Nat
  | .scalar _ => []
  | .dict es => es.map (·.2)
  | .list xs => xs

/-- Documents are built bottom-up, so every node points strictly
downward. -/
def WFHeap (h : Heap) : Prop :=
  ∀ a, a < h.length → ∀ c ∈ (getH h a).children, c < a

/-- First binding of a key in a dict node's entry list. -/
def esGet (es : List (String × Nat)) (k : String) : Option Nat :=
  (es.find? (fun kv => kv.1 = k)).map (·.2)

/-- Python `d[k] = v` on a dict node's entry list. -/
def esSet (es : List (String × Nat)) (k : String) (v : Nat) : List (String × Nat) :=
  match es with
  | [] => [(k, v)]
  | (k', v') :: rest =>
      if k' = k then (k, v) :: rest else (k', v') :: esSet rest k v

/-- Allocate a node at the end of the heap. -/
def allocH (h : Heap) (n : HNode) : Heap × Nat := (h ++ [n], h.length)

/-- Overwrite the node at an address. -/
def setH (h : Heap) (a : Nat) (n : HNode) : Heap := h.set a n

/-- Truthiness of the object at an address. -/
def nodeTruthy (h : Heap) (a : Nat) : Bool :=
  match getH h a with
  | .scalar v => v.truthy
  | .dict es => !es.isEmpty
  | .list xs => !xs.isEmpty

/-- The string payload of the object at an address, when it is one. -/
def nodeStr (h : Heap) (a : Nat) : Option String :=
  match getH h a with
  | .scalar (.str s) => some s
  | _ => none

/-- Python `str()` of the object at an address, as used in audit
f-strings. -/
def nodePyStr (h : Heap) (a : Nat) : String :=
  match getH h a with
  | .scalar v => pyStr v
  | .dict _ => "{...}"
  | .list _ => "[...]"

/-!
`copy.deepcopy` (together with its list and dict helpers): copy the
subgraph below `a` to fresh addresses.  The fuel bounds the recursion
depth; on a well-formed heap a fuel of `a + 1` always suffices, and the
fuel-exhausted branch is unreachable.
-/

/-- Deep copy of the object at one address: children first (left to
right), then the node itself at a fresh address.  `copy.deepcopy`'s
memo table (which preserves sharing inside one document) is not modelled:
without it shared children are duplicated instead of shared, which leaves
the copy's mutation footprint — the only thing the frame property
observes — unchanged. -/
def dcopy : Nat → Heap → Nat → Heap × Nat
  | 0, h, a => (h, a)
  | fuel + 1, h, a =>
      match getH h a with
      | .scalar v => allocH h (.scalar v)
      | .list xs =>
          let r := xs.foldl (fun (p : Heap × List Nat) x =>
            let q := dcopy fuel p.1 x
            (q.1, p.2 ++ [q.2])) (h, [])
          allocH r.1 (.list r.2)
      | .dict es =>
          let r := es.foldl (fun (p : Heap × List (String × Nat)) kv =>
            let q := dcopy fuel p.1 kv.2
            (q.1, p.2 ++ [(kv.1, q.2)])) (h, [])
          allocH r.1 (.dict r.2)

/-- A heap program: runs on a heap, always returns the final heap (so
mutations survive a raised exception, as in Python) together with either
a result or the exception text. -/
def HProg (α : Type) : Type := Heap → Heap × Except String α

/-- Sequencing of heap programs (exceptions short-circuit but keep the
heap reached so far). -/
def HProg.bind (m : HProg α) (f : α → HProg β) : HProg β := fun h =>
  match m h with
  | (h', .ok a) => f a h'
  | (h', .error e) => (h', .error e)

/-- Return a pure value. -/
def HProg.pure (a : α) : HProg α := fun h => (h, .ok a)

instance : Monad HProg where
  pure := HProg.pure
  bind := HProg.bind

/-- Raise a Python exception. -/
def hThrow (e : String) : HProg α := fun h => (h, .error e)

/-- Read the node at an address. -/
def hGet (a : Nat) : HProg HNode := fun h => (h, .ok (getH h a))

/-- Allocate a node, returning its address. -/
def hAlloc (n : HNode) : HProg Nat := fun h => ((allocH h n).1, .ok (allocH h n).2)

/-- Overwrite the node at an address. -/
def hSet (a : Nat) (n : HNode) : HProg Unit := fun h => (setH h a n, .ok ())

/-- Run a heap program under Python's `try`: the handler receives the
exception text on the heap reached when it was raised. -/
def hTryCatch (m : HProg α) (handler : String → HProg α) : HProg α := fun h =>
  match m h with
  | (h', .ok a) => (h', .ok a)
  | (h', .error e) => handler e h'

/-- `doc[k] = <fresh scalar>`; item assignment on a non-dict raises. -/
def hSetScalarKey (a : Nat) (k : String) (v : Yaml) : HProg Unit := do
  match ← hGet a with
  | .dict es => do
      let s ← hAlloc (.scalar v)
      hSet a (.dict (esSet es k s))
  | _ => hThrow "TypeError"

/-- `doc[k] = <object at address v>`. -/
def hSetKeyAddr (a : Nat) (k : String) (v : Nat) : HProg Unit := do
  match ← hGet a with
  | .dict es => hSet a (.dict (esSet es k v))
  | _ => hThrow "TypeError"

/-- `MigrationEngine._replace_api_version` on the heap. -/
def hReplaceApiVersion (doc : Nat) (new_version : String) : HProg Unit :=
  hSetScalarKey doc "apiVersion" (.str new_version)

/-- Dict read `x.get(k)` on the object at an address; `AttributeError`
on a non-dict receiver. -/
def hGetAttr (a : Nat) (k : String) : HProg (Option Nat) := do
  match ← hGet a with
  | .dict es => HProg.pure (esGet es k)
  | _ => hThrow "AttributeError"

/-- `spec.get("template", {}).get("metadata", {}).get("labels", {})` on
the heap; a missing link yields the falsy fresh `{}` (represented as
`none`). -/
def hTemplateLabels (spec : Nat) : HProg (Option Nat) := do
  match ← hGetAttr spec "template" with
  | none => HProg.pure none
  | some t =>
      match ← hGetAttr t "metadata" with
      | none => HProg.pure none
      | some md => hGetAttr md "labels"

/-- Truthiness of the object at an address. -/
def hTruthy (a : Nat) : HProg Bool := do
  let n ← hGet a
  HProg.pure (match n with
    | .scalar v => v.truthy
    | .dict es => !es.isEmpty
    | .list xs => !xs.isEmpty)

/-- `MigrationEngine._fix_deployment_selector` on the heap. -/
def hFixDeploymentSelector (doc : Nat) (new_version : String) : HProg Bool := do
  hReplaceApiVersion doc new_version
  match ← hGet doc with
  | .dict es =>
      match esGet es "spec" with
      | none =>
          -- `spec` defaults to a fresh `{}`: no selector, falsy labels
          HProg.pure false
      | some specA =>
          match ← hGet specA with
          | .dict sm =>
              if (esGet sm "selector").isSome then HProg.pure true
              else do
                match ← hTemplateLabels specA with
                | none => HProg.pure false
                | some labelsA => do
                    if ← hTruthy labelsA then do
                      let sel ← hAlloc (.dict [("matchLabels", labelsA)])
                      hSetKeyAddr specA "selector" sel
                      hSetKeyAddr doc "spec" specA
                      HProg.pure true
                    else HProg.pure false
          | .scalar (.str s) =>
              if pyInStr "selector" s then HProg.pure true
              else hThrow "AttributeError"
          | .list xs => do
              let hits ← xs.mapM (fun c => do
                match ← hGet c with
                | .scalar (.str t) => HProg.pure (t == "selector")
                | _ => HProg.pure false)
              if hits.any id then HProg.pure true else hThrow "AttributeError"
          | _ => hThrow "TypeError"
  | _ => hThrow "TypeError"

/-- The `pathType` patch of `_fix_ingress_v1` for one path element, on
the heap. -/
def hSetPathType (pathA : Nat) : HProg Unit := do
  match ← hGet pathA with
  | .dict pm =>
      if (esGet pm "pathType").isSome then HProg.pure ()
      else do
        let s ← hAlloc (.scalar (.str "ImplementationSpecific"))
        hSet pathA (.dict (esSet pm "pathType" s))
  | .scalar (.str s) =>
      if pyInStr "pathType" s then HProg.pure () else hThrow "TypeError"
  | .list xs => do
      let hits ← xs.mapM (fun c => do
        match ← hGet c with
        | .scalar (.str t) => HProg.pure (t == "pathType")
        | _ => HProg.pure false)
      if hits.any id then HProg.pure () else hThrow "TypeError"
  | _ => hThrow "TypeError"

/-- One rule of `_fix_ingress_v1` on the heap. -/
def hFixIngressRule (ruleA : Nat) : HProg Unit := do
  match ← hGetAttr ruleA "http" with
  | none => HProg.pure ()
  | some httpA =>
      match ← hGetAttr httpA "paths" with
      | none => HProg.pure ()
      | some pathsA =>
          match ← hGet pathsA with
          | .list ps => ps.forM hSetPathType
          | .scalar (.str s) => if s.isEmpty then HProg.pure () else hThrow "TypeError"
          | .dict pm =>
              if pm.all (fun kv => pyInStr "pathType" kv.1) then HProg.pure ()
              else hThrow "TypeError"
          | _ => hThrow "TypeError"

/-- `MigrationEngine._fix_ingress_v1` on the heap. -/
def hFixIngressV1 (doc : Nat) (new_version : String) : HProg Bool := do
  hReplaceApiVersion doc new_version
  match ← hGet doc with
  | .dict es =>
      match esGet es "spec" with
      | none => HProg.pure true
      | some specA => do
          match ← hGetAttr specA "rules" with
          | none => HProg.pure true
          | some rulesA =>
              match ← hGet rulesA with
              | .list rs => do
                  rs.forM hFixIngressRule
                  HProg.pure true
              | .scalar (.str s) =>
                  if s.isEmpty then HProg.pure true else hThrow "AttributeError"
              | .dict rm =>
                  if rm.isEmpty then HProg.pure true else hThrow "AttributeError"
              | _ => hThrow "TypeError"
  | _ => hThrow "TypeError"

/-- `new_doc['metadata'].get('name')` on the heap, rendered with
`str()` semantics. -/
def hMetadataName (doc : Nat) : HProg String := do
  match ← hGet doc with
  | .dict es =>
      match esGet es "metadata" with
      | none => hThrow "KeyError"
      | some mdA =>
          match ← hGet mdA with
          | .dict mes =>
              match esGet mes "name" with
              | none => HProg.pure "None"
              | some nA => do
                  let n ← hGet nA
                  HProg.pure (match n with
                    | .scalar v => pyStr v
                    | .dict _ => "{...}"
                    | .list _ => "[...]")
          | _ => hThrow "AttributeError"
  | _ => hThrow "TypeError"

/-- The strategy `try` block of `migrate` on the heap. -/
def hRunStrategy (info : DeprecationInfo) (new_doc : Nat)
    (apiS kindS : String) : HProg (List String) := do
  if info.strategy = "REPLACE_API_VERSION" then do
    hReplaceApiVersion new_doc info.replacement_api
    let nm ← hMetadataName new_doc
    HProg.pure [migratedLine kindS nm apiS info.replacement_api ""]
  else if info.strategy = "DEPLOYMENT_SELECTOR" then do
    let okFix ← hFixDeploymentSelector new_doc info.replacement_api
    if okFix then do
      let nm ← hMetadataName new_doc
      HProg.pure [migratedLine kindS nm apiS info.replacement_api " (Added Selector)"]
    else HProg.pure []
  else if info.strategy = "INGRESS_V1" then do
    let okFix ← hFixIngressV1 new_doc info.replacement_api
    if okFix then do
      let nm ← hMetadataName new_doc
      HProg.pure [migratedLine kindS nm apiS info.replacement_api
        " (Updated Ingress Structure)"]
    else HProg.pure []
  else if info.strategy = "CRONJOB_V1" then do
    hReplaceApiVersion new_doc info.replacement_api
    let nm ← hMetadataName new_doc
    HProg.pure [migratedLine kindS nm apiS info.replacement_api ""]
  else
    HProg.pure []

/-- `MigrationEngine.migrate` on the heap: deep-copy the argument, then
run the decision logic and strategies with in-place stores on the copy.
The exception handler returns the *original* address together with the
`MIGRATED_FAILED` audit line; the heap keeps whatever stores happened
before the exception, exactly as in Python. -/
def migrateH (target_version : String) (h : Heap) (doc : Nat) :
    Heap × Nat × List String :=
  let (h0, new_doc) := dcopy (doc + 1) h doc
  let apiA := match getH h0 new_doc with
    | .dict es => esGet es "apiVersion"
    | _ => none
  let kindA := match getH h0 new_doc with
    | .dict es => esGet es "kind"
    | _ => none
  let apiTruthy := match apiA with
    | some a => nodeTruthy h0 a
    | none => false
  let kindTruthy := match kindA with
    | some a => nodeTruthy h0 a
    | none => false
  if !apiTruthy || !kindTruthy then (h0, new_doc, [])
  else
    let apiStr := apiA.bind (nodeStr h0)
    let kindStr := kindA.bind (nodeStr h0)
    let infoOpt := match apiStr, kindStr with
      | some a, some k => checker_check a k
      | _, _ => none
    let removed := match infoOpt with
      | none => false
      | some info => compare_versions target_version info.removed_in_version ≥ 0
    if !removed then (h0, new_doc, [])
    else
      match infoOpt with
      | none => (h0, new_doc, [])
      | some info =>
          if info.strategy = "NONE" then (h0, new_doc, [])
          else
            let apiS := (apiA.map (nodePyStr h0)).getD ""
            let kindS := (kindA.map (nodePyStr h0)).getD ""
            match hRunStrategy info new_doc apiS kindS h0 with
            | (h', .ok audit) => (h', new_doc, audit)
            | (h', .error e) =>
                (h', doc, ["MIGRATED_FAILED: Could not migrate " ++ kindS ++ " - " ++ e])

/-! ## Pipeline orchestration (`src/yamlr/core/pipeline.py`)

`HealingPipeline.heal` is modelled at orchestration granularity: the
stage components (lexer, shadow, scanner, registered analyzers, the
structurer's tree builder, the DNA hash and the external `ruamel` dump
used by the serializer) enter as parameters, each allowed to raise; the
in-repo control flow — the `try`/`except` structure, audit-log assembly,
scoring, the migration stage (instantiated with the `migrate` model
above) and the empty-document short-circuit of
`YamlrStructurer.serialize` — is translated from the source.  The
OSS configuration is modelled (no Pro shield/validator, no usage
tracking), which is the code path present in this repository. -/

mutual

/-- Python `==` on modelled values (dict comparison ignores entry
order; float literals compare textually, which agrees with Python on
the canonical literals the structurer produces). -/
def yamlBEq : Yaml → Yaml → Bool
  | .null, .null => true
  | .bool a, .bool b => a == b
  | .int a, .int b => a == b
  | .float a, .float b => a == b
  | .str a, .str b => a == b
  | .seq a, .seq b => yamlListBEq a b
  | .map a, .map b =>
      a.length == b.length && yamlMapSubBEq a b
  | _, _ => false

/-- Elementwise `==` on lists. -/
def yamlListBEq : List Yaml → List Yaml → Bool
  | [], [] => true
  | x :: xs, y :: ys => yamlBEq x y && yamlListBEq xs ys
  | _, _ => false

/-- Every entry of the first dict present and equal in the second. -/
def yamlMapSubBEq : List (String × Yaml) → List (String × Yaml) → Bool
  | [], _ => true
  | (k, v) :: rest, m2 =>
      (match ymGet m2 k with
       | some v2 => yamlBEq v v2
       | none => false) && yamlMapSubBEq rest m2

end

/-- Dotted path join used by `_diff_dicts`. -/
def joinPath (path k : String) : String :=
  if path = "" then k else path ++ "." ++ k

mutual

/-- `HealingPipeline._diff_dicts`.  Python iterates the *set* union of
the keys (unspecified order); the embedding fixes the order to the first
dict's keys followed by the second dict's new keys, a deterministic
refinement that only affects the cosmetic audit text. -/
def pyDiffDicts : YMap → YMap → String → List String
  | d1, d2, path =>
      pyDiffOldKeys d1 d2 path ++
      (d2.filter (fun kv => !(ymHas d1 kv.1))).map (fun kv => "+" ++ joinPath path kv.1)

/-- The keys already present in the first dict. -/
def pyDiffOldKeys : YMap → YMap → String → List String
  | [], _, _ => []
  | (k, v1) :: rest, d2, path =>
      (match ymGet d2 k with
       | none => ["-" ++ joinPath path k]
       | some v2 =>
           if yamlBEq v1 v2 then []
           else
             match v1, v2 with
             | .map m1, .map m2 => pyDiffDicts m1 m2 (joinPath path k)
             | _, _ => ["~" ++ joinPath path k]) ++
      pyDiffOldKeys rest d2 path

end

/-- `HealingPipeline._detect_manifest_changes`; the per-document name
fetch (`doc_after.get('metadata', {}).get('name', ...)`) raises
`AttributeError` when `metadata` is not a dict. -/
def detect_manifest_changes (before after : List YMap) : Except String (List String) :=
  if before.length ≠ after.length then
    .ok ["Document count changed: " ++ toString before.length ++ " → " ++
      toString after.length]
  else
    (((before.zip after).enum).mapM (fun (p : Nat × (YMap × YMap)) =>
      let (i, (db, da)) := p
      let changed := pyDiffDicts db da ""
      if changed.isEmpty then Except.ok []
      else
        match ymGetD da "metadata" (.map []) with
        | .map md =>
            let nm := pyStr (ymGetD md "name" (.str ("doc-" ++ toString i)))
            Except.ok [nm ++ ": " ++ String.intercalate ", " (changed.take 5)]
        | _ => Except.error "AttributeError")).map List.flatten

/-- `MigrationEngine.migrate_all`. -/
def migrate_all (target_version : String) (docs : List YMap) :
    List YMap × List String :=
  (docs.map (fun d => (migrate target_version d).1),
   (docs.map (fun d => (migrate target_version d).2)).flatten)

/-- A registered content analyzer (Stage 6.5), as the registry exposes
it: a name and the outcome of `analyze` on the reconstructed documents. -/
structure ContentAnalyzer where
  name : String
  run : List YMap → Except String (List AnalysisResult)

/-- A registered metadata analyzer (Stage 3.5). -/
structure MetaAnalyzer where
  name : String
  run : List ManifestIdentity → Except String (List AnalysisResult)

/-- The pipeline's collaborators, each with Python exception behaviour
(`Except`): lexer, shadow, scanner, the analyzer registry, the
structurer's tree builder and the heuristic-recovery tag scan, the DNA
hash (`hashlib`/`json`, external) and the `ruamel` dump (external, given
by its interface). -/
structure PipelineComponents where
  lexShard : String → Except String (List Nat)
  lexRepairLog : List String
  flushLeftFixed : Nat
  nestedNormalized : Nat
  quoteRepairs : Nat
  spacingFixes : Nat
  shadowCapture : Except String Unit
  scanShards : List Nat → Except String (List ManifestIdentity)
  metaAnalyzers : List MetaAnalyzer
  findSchemaKey : Option String → Option String → Option String
  reconstruct : Except String (List YMap)
  heuristicRecovery : Bool
  contentAnalyzers : List ContentAnalyzer
  dna : List YMap → String
  serializeDump : List YMap → Bool → String

/-- `YamlrStructurer.serialize`: empty document lists short-circuit to
`""`; otherwise the external dump runs (`dump_all` / `dump`). -/
def structurer_serialize (dump : List YMap → Bool → String)
    (documents : List YMap) (compact : Bool) : String :=
  if documents.isEmpty then "" else dump documents compact

/-- First line of a finding message (`msg.split('\n')[0]`). -/
def firstLine (s : String) : String := (s.splitOn "\n").headD s

/-- The message formatting of Stage 3.5
(`msg + "\n  Hint: " + suggestion` when the suggestion is truthy). -/
def formattedMsg (res : AnalysisResult) : String :=
  match res.suggestion with
  | some s => if s ≠ "" then res.message ++ "\n  Hint: " ++ s else res.message
  | none => res.message

/-- Mutable state of the Stage 3.5 analyzer loop. -/
structure Stage35State where
  findings : List AnalysisResult := []
  warnings : List String := []
  errors : List String := []
  penalty : Int := 0
  crashLogs : List String := []

/-- One finding processed by the Stage 3.5 loop (severity buckets and
the cross-resource penalty, keyed on message substrings). -/
def stage35Result (st : Stage35State) (res : AnalysisResult) : Stage35State :=
  let st := { st with findings := st.findings ++ [res] }
  if res.severity = "WARNING" then
    { st with warnings := st.warnings ++ [formattedMsg res]
              penalty := st.penalty +
                (if pyInStr "Ghost Service" res.message then 10
                 else if pyInStr "Orphan" res.message then 3 else 0) }
  else if res.severity = "ERROR" then
    { st with errors := st.errors ++ [formattedMsg res]
              penalty := st.penalty +
                (if pyInStr "Broken Volume" res.message then 15 else 0) }
  else st

/-- One analyzer processed by the Stage 3.5 loop (a crash is isolated
and logged). -/
def stage35Analyzer (identities : List ManifestIdentity)
    (st : Stage35State) (an : MetaAnalyzer) : Stage35State :=
  match an.run identities with
  | .ok results => results.foldl stage35Result st
  | .error e =>
      { st with crashLogs := st.crashLogs ++
          ["Stage 3.5: Analyzer '" ++ an.name ++ "' crashed: " ++ e] }

/-- The truncated issue list rendered into the audit log (`[:5]` with an
overflow line). -/
def issueSection (header overflowNoun : String) (msgs : List String) : List String :=
  if msgs.isEmpty then []
  else
    [header ++ " (" ++ toString msgs.length ++ "):"] ++
    (msgs.take 5).map (fun m => "    • " ++ firstLine m) ++
    (if msgs.length > 5 then
      ["    • ... and " ++ toString (msgs.length - 5) ++ " more " ++ overflowNoun]
     else [])

/-- The complete audit block of Stage 3.5 once the loop has run. -/
def stage35Audit (totalAnalyzers : Nat) (st : Stage35State) : List String :=
  st.crashLogs ++
  (if st.warnings.length + st.errors.length > 0 then
    ["Stage 3.5: Semantic analysis found " ++
      toString (st.warnings.length + st.errors.length) ++ " issues across " ++
      toString totalAnalyzers ++ " analyzers"] ++
    issueSection "  ⚠️  Semantic Warnings" "warnings" st.warnings ++
    issueSection "  ❌ Semantic Errors" "errors" st.errors ++
    (if st.penalty > 0 then
      ["  📉 Health Score Impact: -" ++ toString st.penalty ++ " points"]
     else [])
  else
    ["Stage 3.5: Semantic analysis - No issues detected (" ++
      toString totalAnalyzers ++ " analyzers) ✓"])

/-- Mutable state of the Stage 6.5 content-analyzer loop. -/
structure Stage65State where
  findings : List AnalysisResult
  audit : List String := []
  health : Int

/-- One content analyzer processed by the Stage 6.5 loop. -/
def stage65Analyzer (docs : List YMap) (st : Stage65State) (an : ContentAnalyzer) :
    Stage65State :=
  match an.run docs with
  | .ok results =>
      results.foldl (fun st2 res =>
        if res.severity = "error" then
          { st2 with findings := st2.findings ++ [res]
                     audit := st2.audit ++ ["  ❌ " ++ res.message]
                     health := st2.health - 10 }
        else
          { st2 with findings := st2.findings ++ [res]
                     audit := st2.audit ++ ["  ⚠️  " ++ res.message]
                     health := st2.health - 3 }) st
  | .error e =>
      { st with audit := st.audit ++
          ["Stage 6.5: Analyzer '" ++ an.name ++ "' blocked: " ++ e] }

/-- The audit entries of Stages 0–2 (needed verbatim by the Scanner
catastrophic-failure equation). -/
def stage012Audit (c : PipelineComponents) (shards : List Nat) : List String :=
  ["Stage 0: Internal pipeline state reset"] ++
  ["Stage 1: Lexer produced " ++ toString shards.length ++ " shards"] ++
  (if !c.lexRepairLog.isEmpty then
    ["Stage 1: Lexer Healing Summary:"] ++ c.lexRepairLog.map (fun e => "  → " ++ e)
   else
    ["Stage 1: No lexical repairs needed (clean YAML)"]) ++
  (match c.shadowCapture with
   | .ok _ => ["Stage 2: Layout and comment metadata generated"]
   | .error e => ["Stage 2: Warning - Layout preservation limited: " ++ e])

/-- Stage 6.1 as a function of the reconstructed documents: migrated
documents, audit lines, and the documents list left for later stages
(the assignment happens before the DNA diff, so a diff exception keeps
the migrated documents). -/
def stage61 (c : PipelineComponents) (clusterVersion : Option String)
    (preDna : String) (docs : List YMap) : List YMap × List String :=
  let cvTruthy := match clusterVersion with
    | some s => s ≠ ""
    | none => false
  if !cvTruthy then (docs, [])
  else
    let cv := clusterVersion.getD ""
    let (docs1, mlogs) := migrate_all cv docs
    if !mlogs.isEmpty then
      let applied :=
        ["Stage 6.1: Prophetic Migration Applied (" ++ toString mlogs.length ++
          " updates)"] ++ mlogs.map (fun m => "  ✨ " ++ m)
      let migDna := c.dna docs1
      let changes :=
        if preDna ≠ migDna then detect_manifest_changes docs docs1 else .ok []
      match changes with
      | .ok cs =>
          (docs1, applied ++
            (if !cs.isEmpty then
              ["Stage 6.1: Migration mutated manifest: " ++
                String.intercalate ", " (cs.take 3)]
             else []))
      | .error e =>
          (docs1, applied ++ ["Stage 6.1: Migration Engine failed: " ++ e])
    else
      (docs1, ["Stage 6.1: No deprecated APIs found to migrate."])

/-- The base health score of Stage 8 (OSS path), from the lexer repair
statistics (`nested_lists_normalized` deliberately not counted). -/
def stage8BaseScore (c : PipelineComponents) : Nat × Int :=
  let real_fixes := c.flushLeftFixed + c.quoteRepairs + c.spacingFixes
  (real_fixes,
   if real_fixes = 0 then 100
   else if real_fixes ≤ 3 then 95
   else if real_fixes ≤ 10 then 85
   else 70)

/-- `HealingPipeline.heal` (OSS configuration): the complete
orchestration, returning
`(healed_text, audit_log, score, identities, findings)`. -/
def heal_model (c : PipelineComponents) (raw_yaml : String) (compact : Bool)
    (cluster_version : Option String) :
    String × List String × Int × List ManifestIdentity × List AnalysisResult :=
  -- Stage 0 and Stage 1
  match c.lexShard raw_yaml with
  | .error e => (raw_yaml, ["CRITICAL: Lexing failed - " ++ e], 0, [], [])
  | .ok shards =>
    let audit := stage012Audit c shards
    -- Stage 3
    match c.scanShards shards with
    | .error e => (raw_yaml, audit ++ ["CRITICAL: Scanner failed - " ++ e], 0, [], [])
    | .ok identities =>
      let primary := identities.head?
      let audit := audit ++
        (match primary with
         | some p => ["Stage 3: Identified " ++ optStr p.api_version ++ "/" ++
             optStr p.kind]
         | none => ["Stage 3: No valid K8s identity found"])
      let kind := primary.bind (·.kind)
      let api_version := primary.bind (·.api_version)
      let health : Int := if primary.isSome then 100 else 0
      -- Stage 3.5
      let (audit, st35) :=
        if !identities.isEmpty then
          let st := c.metaAnalyzers.foldl (stage35Analyzer identities) {}
          (audit ++ stage35Audit c.metaAnalyzers.length st, st)
        else
          (audit ++ ["Stage 3.5: Cross-resource analysis skipped (no identities)"],
           {})
      -- Stage 4
      let audit := audit ++
        ["Stage 4: HealContext established (target K8s: " ++
          (match cluster_version with
           | some s => s
           | none => "None") ++ ")"]
      -- Stage 5
      let audit := audit ++
        (match c.findSchemaKey kind api_version with
         | some k => ["Stage 5: Schema matched via " ++ k]
         | none => ["Stage 5: No schema match. Proceeding with heuristic learning mode."])
      -- Stage 6
      match c.reconstruct with
      | .error e =>
          (raw_yaml, audit ++ ["CRITICAL: Reconstruction failed - " ++ e], 0,
            identities, st35.findings)
      | .ok docs0 =>
        let preDna := c.dna docs0
        let audit := audit ++
          ["Stage 6: Reconstructed " ++ toString docs0.length ++
            " document(s) [DNA: " ++ (preDna.take 8) ++ "]"] ++
          (if c.heuristicRecovery then
            ["Stage 6: Learning Mode: Heuristic recovery active for unknown kind."]
           else [])
        -- Stage 6.1
        let (docs1, audit61) := stage61 c cluster_version preDna docs0
        let audit := audit ++ audit61
        -- Stage 6.5
        let audit := audit ++
          (if !c.contentAnalyzers.isEmpty then
            ["Stage 6.5: Running " ++ toString c.contentAnalyzers.length ++
              " content analyzers..."]
           else [])
        let st65 := c.contentAnalyzers.foldl (stage65Analyzer docs1)
          { findings := st35.findings, health := health }
        let audit := audit ++ st65.audit
        -- Stage 7 (OSS: shield absent)
        let audit := audit ++ ["Stage 7: Skipped (Yamlr extension not found)"]
        let protected_docs := docs1
        -- Stage 8 (OSS path)
        let audit := audit ++ ["Stage 8: Basic Validation (OSS Mode)"]
        let (real_fixes, health) :=
          if !identities.isEmpty then stage8BaseScore c else (0, 0)
        let audit := audit ++
          (if !identities.isEmpty then
            ["Stage 8: Base health score: " ++ toString health ++
              "/100 (syntax repairs: " ++ toString real_fixes ++ ")"]
           else
            ["Stage 8: No valid K8s resources found - health score: 0"])
        -- Stage 8.5
        let (health, audit) :=
          if st35.penalty > 0 then
            (max 0 (health - st35.penalty),
             audit ++ ["Stage 8.5: Cross-resource penalty applied: -" ++
               toString st35.penalty ++ " points"])
          else (health, audit)
        -- DNA integrity check
        let post_dna := c.dna protected_docs
        let audit := audit ++
          (if preDna = post_dna then
            ["🛡️ DNA Verified: Manifest logic remains unchanged."]
           else
            ["⚠️ DNA Warning: Healing/hardening policies modified manifest logic."])
        -- Stage 9
        let healed_text := structurer_serialize c.serializeDump protected_docs compact
        let audit := audit ++ ["Stage 9: Final YAML serialization successful"]
        let total_fixes := c.flushLeftFixed + c.nestedNormalized + c.quoteRepairs +
          c.spacingFixes
        let audit := audit ++
          (if total_fixes > 0 then
            ["📊 Lexer Repair Summary: " ++ toString total_fixes ++ " total fixes " ++
              "(flush-left: " ++ toString c.flushLeftFixed ++
              ", normalized: " ++ toString c.nestedNormalized ++
              ", quotes: " ++ toString c.quoteRepairs ++
              ", spacing: " ++ toString c.spacingFixes ++ ")"]
           else [])
        let audit := audit ++
          ["=== HEALING COMPLETE | Confidence: " ++ toString health ++ "/100 ==="]
        (healed_text, audit, health, identities, st65.findings)

/-- A smallest set of pipeline collaborators (empty shard stream, no
identities, no analyzers, trivially succeeding stages), used to
instantiate the orchestration theorems on concrete runs. -/
def trivialParts : PipelineComponents where
  lexShard := fun _ => .ok []
  lexRepairLog := []
  flushLeftFixed := 0
  nestedNormalized := 0
  quoteRepairs := 0
  spacingFixes := 0
  shadowCapture := .ok ()
  scanShards := fun _ => .ok []
  metaAnalyzers := []
  findSchemaKey := fun _ _ => none
  reconstruct := .ok []
  heuristicRecovery := false
  contentAnalyzers := []
  dna := fun _ => ""
  serializeDump := fun _ _ => ""

/-! ## Frame-property apparatus for the heap model

The frame property of `migrate` is stated against a watermark `n`
(instantiated with the input heap's length): the original document lives
strictly below `n`, the deep copy and every strategy allocation live at
or above `n`, and the migrated region never points back below the
watermark, so no store can touch the original nodes. -/

/-- The region at or above the watermark is closed: its nodes only point
at or above the watermark. -/
def RCa (n : Nat) (h : Heap) : Prop :=
  ∀ a, n ≤ a → ∀ c ∈ (getH h a).children, n ≤ c

/-- A heap program frames the region below `n`: run on any heap that
contains the watermark region and is closed above it, it keeps the heap
at least as long, preserves every node below `n`, keeps the upper region
closed, and every normally returned value satisfies `Q`. -/
def Frames {α : Type} (n : Nat) (m : HProg α) (Q : α → Prop) : Prop :=
  ∀ h, n ≤ h.length → RCa n h →
    n ≤ (m h).1.length ∧ RCa n (m h).1 ∧
    (∀ b, b < n → getH (m h).1 b = getH h b) ∧
    (∀ x, (m h).2 = Except.ok x → Q x)

/-- A bottom-up heap holding one `extensions/v1beta1` Deployment (with
template labels and no selector) at address 9, used to exercise the
frame theorem on a run that rewrites the copy. -/
def frameWitnessHeap : Heap :=
  [.scalar (.str "extensions/v1beta1"),          -- 0: apiVersion value
   .scalar (.str "Deployment"),                  -- 1: kind value
   .scalar (.str "web"),                         -- 2: name value
   .dict [("name", 2)],                          -- 3: metadata
   .scalar (.str "nginx"),                       -- 4: label value
   .dict [("app", 4)],                           -- 5: template labels
   .dict [("labels", 5)],                        -- 6: template metadata
   .dict [("metadata", 6)],                      -- 7: template
   .dict [("template", 7)],                      -- 8: spec
   .dict [("apiVersion", 0), ("kind", 1), ("metadata", 3), ("spec", 8)]]  -- 9: doc

/-! # Theorems -/

/-! ## Character and list helper lemmas -/

theorem dropWhile_eq_self_of_none (p : Char → Bool) (l : List Char)
    (h : ∀ x ∈ l, p x = false) : l.dropWhile p = l := by
  cases l with
  | nil => rfl
  | cons c rest =>
      rw [List.dropWhile_cons, if_neg]
      simp [h c (List.mem_cons_self _ _)]

theorem trimChars_eq_self (l : List Char)
    (h : ∀ x ∈ l, x.isWhitespace = false) : trimChars l = l := by
  unfold trimChars
  rw [dropWhile_eq_self_of_none _ _ h,
    dropWhile_eq_self_of_none _ _ (fun x hx => h x (List.mem_reverse.mp hx)),
    List.reverse_reverse]

theorem trimC_eq_trimChars (l : List Char) : trimC l = trimChars l := rfl

theorem stripCharsC_eq_self (chars l : List Char)
    (h : ∀ x ∈ l, chars.contains x = false) : stripCharsC chars l = l := by
  unfold stripCharsC
  rw [dropWhile_eq_self_of_none _ _ h,
    dropWhile_eq_self_of_none _ _ (fun x hx => h x (List.mem_reverse.mp hx)),
    List.reverse_reverse]

theorem digit_char_props (c : Char) (h : c.isDigit = true) :
    c.isWhitespace = false ∧ c.toLower = c ∧
    ∀ t : Char, (t.toNat < 48 ∨ 57 < t.toNat) → c ≠ t := by
  have hval : 48 ≤ c.toNat ∧ c.toNat ≤ 57 := by
    have h' : (48 : UInt32) ≤ c.val ∧ c.val ≤ 57 := by simpa [Char.isDigit] using h
    have l1 := UInt32.le_def.mp h'.1
    have l2 := UInt32.le_def.mp h'.2
    simp only [BitVec.le_def] at l1 l2
    exact ⟨l1, l2⟩
  refine ⟨?_, ?_, ?_⟩
  · simp only [Char.isWhitespace, Bool.or_eq_false_iff, decide_eq_false_iff_not]
    refine ⟨⟨⟨?_, ?_⟩, ?_⟩, ?_⟩ <;> rintro rfl <;> revert hval <;> decide
  · have hlt : c.toNat < 65 := by omega
    unfold Char.toLower
    rw [if_neg]
    omega
  · rintro t ht rfl
    omega

theorem pyIntTail_all_digits (l : List Char)
    (h : ∀ x ∈ l, x.isDigit = true) : pyIntTail l = true := by
  induction l with
  | nil => rfl
  | cons c rest ih =>
      have hc := h c (List.mem_cons_self _ _)
      unfold pyIntTail
      rw [if_neg ((digit_char_props c hc).2.2 '_' (by right; decide)), hc,
        ih (fun x hx => h x (List.mem_cons_of_mem _ hx))]
      rfl

theorem pyIntDigits_all_digits (l : List Char) (hne : l ≠ [])
    (h : ∀ x ∈ l, x.isDigit = true) : pyIntDigits l = true := by
  cases l with
  | nil => exact absurd rfl hne
  | cons c rest =>
      unfold pyIntDigits
      rw [h c (List.mem_cons_self _ _),
        pyIntTail_all_digits _ (fun x hx => h x (List.mem_cons_of_mem _ hx))]
      rfl

theorem breakAtFirst_none_inv (p : Char → Bool) (l A : List Char)
    (h : breakAtFirst p l = (A, none)) : ∀ x ∈ l, p x = false := by
  induction l generalizing A with
  | nil => intro x hx; cases hx
  | cons c rest ih =>
      unfold breakAtFirst at h
      by_cases hc : p c
      · rw [if_pos hc] at h; cases h
      · rw [if_neg hc] at h
        cases hbr : breakAtFirst p rest with
        | mk A' o =>
            rw [hbr] at h
            cases o with
            | none =>
                intro x hx
                rcases List.mem_cons.mp hx with rfl | hx'
                · simpa using hc
                · exact ih A' hbr x hx'
            | some B => simp at h

theorem breakAtFirst_some_inv (p : Char → Bool) (l A B : List Char)
    (h : breakAtFirst p l = (A, some B)) :
    (∀ x ∈ A, p x = false) ∧ ∃ x, p x = true ∧ l = A ++ x :: B := by
  induction l generalizing A B with
  | nil => cases h
  | cons c rest ih =>
      unfold breakAtFirst at h
      by_cases hc : p c
      · rw [if_pos hc] at h
        have hA : A = [] := by injection h with h1 _; exact h1.symm
        have hB : B = rest := by
          injection h with _ h2; injection h2 with h2; exact h2.symm
        subst hA; subst hB
        exact ⟨(by intro x hx; cases hx), c, hc, rfl⟩
      · rw [if_neg hc] at h
        cases hbr : breakAtFirst p rest with
        | mk A' o =>
            rw [hbr] at h
            cases o with
            | none => simp at h
            | some B' =>
                have hA : A = c :: A' := by injection h with h1 _; exact h1.symm
                have hB : B = B' := by
                  injection h with _ h2; injection h2 with h2; exact h2.symm
                subst hA; subst hB
                obtain ⟨hA', x, hx, hrest⟩ := ih A' B hbr
                refine ⟨?_, x, hx, by simp [hrest]⟩
                intro y hy
                rcases List.mem_cons.mp hy with rfl | hy'
                · simpa using hc
                · exact hA' y hy'

theorem breakAtFirst_eq_none (p : Char → Bool) (l : List Char)
    (h : ∀ x ∈ l, p x = false) : breakAtFirst p l = (l, none) := by
  induction l with
  | nil => rfl
  | cons c rest ih =>
      unfold breakAtFirst
      rw [if_neg (by simp [h c (List.mem_cons_self _ _)]),
        ih (fun x hx => h x (List.mem_cons_of_mem _ hx))]

theorem breakAtFirst_snd_isSome (p : Char → Bool) (l : List Char) (x : Char)
    (hx : x ∈ l) (hpx : p x = true) : (breakAtFirst p l).2.isSome := by
  induction l with
  | nil => cases hx
  | cons c rest ih =>
      unfold breakAtFirst
      by_cases hc : p c
      · rw [if_pos hc]; rfl
      · rw [if_neg hc]
        rcases List.mem_cons.mp hx with rfl | hx'
        · exact absurd hpx hc
        · cases hbr : breakAtFirst p rest with
          | mk A o =>
              have := ih hx'
              rw [hbr] at this
              simpa using this

/-- Facts about the characters of a numeric literal (digits, dot, sign):
no whitespace, no quotes, lowercase-fixed, not an exponent marker. -/
theorem numeric_char_facts (x : Char) (h : x.isDigit = true ∨ x = '.' ∨ x = '-') :
    x.isWhitespace = false ∧ (['\'', '"'] : List Char).contains x = false ∧
    x.toLower = x ∧ (decide (x = 'e' ∨ x = 'E')) = false ∧
    (decide (x = '.')) = (decide (x = '.')) := by
  rcases h with h | h | h
  · obtain ⟨hws, hlow, hne⟩ := digit_char_props x h
    refine ⟨hws, ?_, hlow, ?_, rfl⟩
    · have h1 : x ≠ '\'' := hne _ (by decide)
      have h2 : x ≠ '"' := hne _ (by decide)
      simp [h1, h2]
    · simp only [decide_eq_false_iff_not]
      rintro (rfl | rfl) <;> revert h <;> decide
  · subst h; exact ⟨rfl, rfl, rfl, rfl, rfl⟩
  · subst h; exact ⟨rfl, rfl, rfl, rfl, rfl⟩

/-- The mantissa part of the float grammar accepts a digit-or-dot list
with at most one dot and at least one digit. -/
theorem pyFloatCore_of_numeric (body : List Char)
    (hchars : ∀ x ∈ body, x.isDigit = true ∨ x = '.')
    (hcount : body.count '.' ≤ 1)
    (hdig : ∃ d ∈ body, d.isDigit = true) :
    pyFloatCore body = true := by
  have hchars3 : ∀ x ∈ body, x.isDigit = true ∨ x = '.' ∨ x = '-' :=
    fun x hx => (hchars x hx).imp id Or.inl
  have hnoE : breakAtFirst (fun c => decide (c = 'e' ∨ c = 'E')) body = (body, none) :=
    breakAtFirst_eq_none _ _
      (fun x hx => (numeric_char_facts x (hchars3 x hx)).2.2.2.1)
  unfold pyFloatCore
  rw [hnoE]
  simp only
  by_cases hdot : '.' ∈ body
  · have hsome := breakAtFirst_snd_isSome (fun c => decide (c = '.')) body '.' hdot
      (by decide)
    cases hbr : breakAtFirst (fun c => decide (c = '.')) body with
    | mk A o =>
        cases o with
        | none => rw [hbr] at hsome; simp at hsome
        | some B =>
            obtain ⟨hA, x, hpx, hdecomp⟩ := breakAtFirst_some_inv _ _ _ _ hbr
            have hxdot : x = '.' := by simpa using hpx
            subst hxdot
            have hAnodot : ∀ y ∈ A, y ≠ '.' := by
              intro y hy
              have := hA y hy
              simpa using this
            have hBnodot : ∀ y ∈ B, y ≠ '.' := by
              have hc : body.count '.' = A.count '.' + (B.count '.' + 1) := by
                rw [hdecomp]
                simp [List.count_append, List.count_cons]
              have hB0 : B.count '.' = 0 := by omega
              intro y hy hcon
              subst hcon
              have := List.count_eq_zero.mp hB0
              exact this hy
            have hAdig : ∀ y ∈ A, y.isDigit = true := by
              intro y hy
              have hmem : y ∈ body := by rw [hdecomp]; exact List.mem_append_left _ hy
              rcases hchars y hmem with h | h
              · exact h
              · exact absurd h (hAnodot y hy)
            have hBdig : ∀ y ∈ B, y.isDigit = true := by
              intro y hy
              have hmem : y ∈ body := by
                rw [hdecomp]
                exact List.mem_append_right _ (List.mem_cons_of_mem _ hy)
              rcases hchars y hmem with h | h
              · exact h
              · exact absurd h (hBnodot y hy)
            simp only [Bool.and_true]
            by_cases hAe : A.isEmpty
            · rw [if_pos hAe]
              have hBne : B ≠ [] := by
                obtain ⟨d, hd, hdd⟩ := hdig
                rw [hdecomp] at hd
                have hAnil : A = [] := by
                  cases A with
                  | nil => rfl
                  | cons a t => simp [List.isEmpty] at hAe
                subst hAnil
                simp at hd
                rcases hd with rfl | hd
                · simp at hdd
                · exact List.ne_nil_of_mem hd
              simp [pyIntDigits_all_digits B hBne hBdig]
            · rw [if_neg hAe]
              have hAne : A ≠ [] := by
                cases A with
                | nil => simp [List.isEmpty] at hAe
                | cons a t => simp
              rw [pyIntDigits_all_digits A hAne hAdig]
              cases B with
              | nil => simp
              | cons b t =>
                  rw [pyIntDigits_all_digits (b :: t) (by simp) hBdig]
                  simp
  · have hmantNone : breakAtFirst (fun c => decide (c = '.')) body = (body, none) :=
      breakAtFirst_eq_none _ _ (by
        intro x hx
        simp only [decide_eq_false_iff_not]
        rintro rfl
        exact hdot hx)
    rw [hmantNone]
    simp only
    have hne : body ≠ [] := by
      obtain ⟨d, hd, _⟩ := hdig
      exact List.ne_nil_of_mem hd
    have hall : ∀ x ∈ body, x.isDigit = true := by
      intro x hx
      rcases hchars x hx with h | h
      · exact h
      · exact absurd (h ▸ hx) hdot
    simp [pyIntDigits_all_digits body hne hall]

/-- Decomposition of a purely numeric literal: head character and body
(the part the sign does not cover). -/
theorem pureNumericLit_struct (s : String) (hs : pureNumericLit s = true) :
    ∃ c rest, s.data = c :: rest ∧
      ((c.isDigit = true ∧ c ≠ '-') ∨ (c = '-' ∧ rest ≠ [])) ∧
      (∀ x ∈ (if c = '-' then rest else c :: rest), x.isDigit = true ∨ x = '.') ∧
      (if c = '-' then rest else c :: rest).count '.' ≤ 1 ∧
      ∃ d ∈ (if c = '-' then rest else c :: rest), d.isDigit = true := by
  cases hsd : s.data with
  | nil => unfold pureNumericLit at hs; rw [hsd] at hs; cases hs
  | cons c rest =>
      unfold pureNumericLit at hs
      rw [hsd] at hs
      simp only [Bool.and_eq_true, Bool.or_eq_true, List.all_eq_true, List.any_eq_true,
        decide_eq_true_eq, Bool.not_eq_true', List.isEmpty_eq_false] at hs
      obtain ⟨hc, ⟨hall, hcount⟩, hdig⟩ := hs
      refine ⟨c, rest, rfl, ?_, ?_, hcount, ?_⟩
      · rcases hc with hc | hc
        · exact Or.inl ⟨hc, (digit_char_props c hc).2.2 '-' (by decide)⟩
        · exact Or.inr hc
      · intro x hx
        have := hall x hx
        tauto
      · obtain ⟨d, hd, hdd⟩ := hdig
        exact ⟨d, hd, hdd⟩

/-- A purely numeric literal never takes `_clean_value`'s alphanumeric
fast path. -/
theorem numeric_not_fastpath (s : String) (hne : s.data ≠ [])
    (hchars : ∀ x ∈ s.data, x.isDigit = true ∨ x = '.' ∨ x = '-') :
    (pyIsAlnum s && !pyIsDigit s) = false := by
  by_cases hall : ∀ x ∈ s.data, x.isDigit = true
  · have hd : pyIsDigit s = true := by
      unfold pyIsDigit
      rw [List.all_eq_true.mpr hall]
      simp [hne]
    rw [hd]
    simp
  · push_neg at hall
    obtain ⟨x, hx, hxd⟩ := hall
    have hxd' : x.isDigit = false := by simpa using hxd
    have hx2 : x = '.' ∨ x = '-' := by
      rcases hchars x hx with h | h | h
      · rw [h] at hxd'; cases hxd'
      · exact Or.inl h
      · exact Or.inr h
    have hna : pyIsAlnum s = false := by
      unfold pyIsAlnum
      have hfail : s.data.all (fun c => c.isAlpha || c.isDigit) = false := by
        rw [List.all_eq_false]
        exact ⟨x, hx, by rcases hx2 with rfl | rfl <;> decide⟩
      rw [hfail]
      simp
    rw [hna]
    rfl

/-- C9.  `_clean_value` and the keyed-scalar arm of `_build_tree`:
`'true'`/`'false'` become booleans; a purely numeric value with optional
leading `-` becomes a float (decimal dot present) or an integer (no
dot); alphanumeric non-numeric values and stripped values with a
non-numeric head stay strings; `_clean_value` never produces a list from
a string, so a forced-array key stores its cleaned scalar as a
single-element sequence. -/
theorem clean_value_scalar_typing :
    (clean_value (.str "true") = .bool true ∧
     clean_value (.str "false") = .bool false) ∧
    (∀ s : String, pureNumericLit s = true →
      (s.data.contains '.' = true → clean_value (.str s) = .float s) ∧
      (s.data.contains '.' = false → ∃ n : Int, clean_value (.str s) = .int n)) ∧
    (∀ s : String, (pyIsAlnum s && !pyIsDigit s) = true →
      s.data.map Char.toLower ≠ "true".data →
      s.data.map Char.toLower ≠ "false".data →
      clean_value (.str s) = .str s) ∧
    (∀ s : String, (pyIsAlnum s && !pyIsDigit s) = false →
      (strippedOf s).data.map Char.toLower ≠ "true".data →
      (strippedOf s).data.map Char.toLower ≠ "false".data →
      ¬(strippedOf s ≠ "" ∧ (((strippedOf s).data.head?.map Char.isDigit).getD false ∨
          (strippedOf s).data.head? = some '-')) →
      clean_value (.str s) = .str (strippedOf s)) ∧
    (∀ t : String, isPyList (clean_value (.str t)) = false) ∧
    (∀ (parent : YMap) (key : String) (sv : Yaml), key ∈ forced_arrays →
      isPyList (clean_value sv) = false →
      store_keyed_scalar parent key sv = ymSet parent key (.seq [clean_value sv])) := by
  refine ⟨⟨rfl, rfl⟩, ?_, ?_, ?_, ?_, ?_⟩
  · -- purely numeric values
    intro s hs
    obtain ⟨c, rest, hsd, hc, hchars, hcount, hdig⟩ := pureNumericLit_struct s hs
    have hcne : c ≠ '+' := by
      rcases hc with ⟨hcd, _⟩ | ⟨rfl, _⟩
      · exact (digit_char_props c hcd).2.2 '+' (by decide)
      · decide
    have hchars3 : ∀ x ∈ s.data, x.isDigit = true ∨ x = '.' ∨ x = '-' := by
      intro x hx
      rw [hsd] at hx
      rcases hc with ⟨hcd, hcm⟩ | ⟨hcm, _⟩
      · rw [if_neg hcm] at hchars
        exact (hchars x hx).imp id Or.inl
      · subst hcm
        rw [if_pos rfl] at hchars
        rcases List.mem_cons.mp hx with rfl | hx'
        · exact Or.inr (Or.inr rfl)
        · exact (hchars x hx').imp id Or.inl
    have hne : s.data ≠ [] := by rw [hsd]; simp
    have hfast := numeric_not_fastpath s hne hchars3
    have hnws : ∀ x ∈ s.data, x.isWhitespace = false :=
      fun x hx => (numeric_char_facts x (hchars3 x hx)).1
    have hnq : ∀ x ∈ s.data, (['\'', '"'] : List Char).contains x = false :=
      fun x hx => (numeric_char_facts x (hchars3 x hx)).2.1
    have hstrip : strippedOf s = s := by
      unfold strippedOf
      rw [trimC_eq_trimChars, trimChars_eq_self _ hnws, stripCharsC_eq_self _ _ hnq]
    have hlowhead : (s.data.map Char.toLower).head? = some c.toLower := by
      rw [hsd]; rfl
    have hcmem : c ∈ s.data := by rw [hsd]; exact List.mem_cons_self _ _
    have hclow : c.toLower = c := (numeric_char_facts c (hchars3 c hcmem)).2.2.1
    have hlow1 : s.data.map Char.toLower ≠ "true".data := by
      intro heq
      have := hlowhead
      rw [heq] at this
      have hct : c = 't' := by
        rw [hclow] at this
        simpa using this.symm
      subst hct
      rcases hc with ⟨hcd, _⟩ | ⟨hcm, _⟩
      · exact absurd hcd (by decide)
      · exact absurd hcm (by decide)
    have hlow2 : s.data.map Char.toLower ≠ "false".data := by
      intro heq
      have := hlowhead
      rw [heq] at this
      have hct : c = 'f' := by
        rw [hclow] at this
        simpa using this.symm
      subst hct
      rcases hc with ⟨hcd, _⟩ | ⟨hcm, _⟩
      · exact absurd hcd (by decide)
      · exact absurd hcm (by decide)
    have hsne : s ≠ "" := by
      intro h
      rw [h] at hsd
      cases hsd
    have hguard : s ≠ "" ∧
        ((s.data.head?.map Char.isDigit).getD false ∨
          s.data.head? = some '-') := by
      refine ⟨hsne, ?_⟩
      rcases hc with ⟨hcd, _⟩ | ⟨hcm, _⟩
      · left; rw [hsd]; simp [hcd]
      · right; rw [hsd, hcm]; rfl
    have hbodyEq : dropSignChar s.data = (if c = '-' then rest else c :: rest) := by
      rw [hsd]
      unfold dropSignChar
      dsimp only
      by_cases hcm : c = '-'
      · rw [if_pos (show c = '+' ∨ c = '-' from Or.inr hcm), if_pos hcm]
      · rw [if_neg (show ¬(c = '+' ∨ c = '-') by simp [hcne, hcm]), if_neg hcm]
    have hvalid : pyFloatValid s.data = true := by
      unfold pyFloatValid
      rw [hbodyEq]
      exact pyFloatCore_of_numeric _ hchars hcount hdig
    constructor
    · -- decimal dot present: float
      intro hdot
      have hpf : pyFloat s = some s := by
        unfold pyFloat
        rw [trimChars_eq_self _ hnws, hvalid]
        rfl
      unfold clean_value
      dsimp only
      simp only [hstrip]
      rw [if_neg (by simp [hfast]), if_neg hlow1, if_neg hlow2, if_pos hguard,
        if_pos hdot, hpf]
    · -- no dot: integer
      intro hdot
      have hnodot : '.' ∉ s.data := by
        intro hmem
        have hcon := List.elem_eq_true_of_mem hmem
        have : s.data.contains '.' = true := hcon
        rw [hdot] at this
        cases this
      have hbodyAll : ∀ x ∈ (if c = '-' then rest else c :: rest), x.isDigit = true := by
        intro x hx
        rcases hchars x hx with h | h
        · exact h
        · subst h
          exfalso
          apply hnodot
          rw [hsd]
          by_cases hcm : c = '-'
          · rw [if_pos hcm] at hx
            exact List.mem_cons_of_mem _ hx
          · rw [if_neg hcm] at hx
            exact hx
      have hint : ∃ n, pyInt s = some n := by
        unfold pyInt
        rw [trimChars_eq_self _ hnws, hsd]
        dsimp only
        rcases hc with ⟨hcd, hcm⟩ | ⟨hcm, hrne⟩
        · rw [if_neg hcm, if_neg hcne, if_pos]
          · exact ⟨_, rfl⟩
          · rw [if_neg hcm] at hbodyAll
            exact pyIntDigits_all_digits _ (by simp) hbodyAll
        · rw [if_pos hcm]
          rw [if_pos]
          · exact ⟨_, rfl⟩
          · rw [if_pos hcm] at hbodyAll
            exact pyIntDigits_all_digits _ hrne hbodyAll
      obtain ⟨n, hn⟩ := hint
      refine ⟨n, ?_⟩
      unfold clean_value
      dsimp only
      simp only [hstrip]
      rw [if_neg (by simp [hfast]), if_neg hlow1, if_neg hlow2, if_pos hguard,
        if_neg (by rw [hdot]; simp), hn]
  · -- alphanumeric fast path keeps the string
    intro s hfast hlow1 hlow2
    unfold clean_value
    dsimp only
    rw [if_pos hfast, if_neg hlow1, if_neg hlow2]
  · -- stripped values with non-numeric head stay strings
    intro s hfast hlow1 hlow2 hguard
    unfold clean_value
    dsimp only
    rw [if_neg (by simp [hfast]), if_neg hlow1, if_neg hlow2, if_neg hguard]
  · -- a string never cleans to a list
    intro t
    unfold clean_value
    dsimp only
    repeat' split
    all_goals rfl
  · -- forced-array wrap of a keyed scalar
    intro parent key sv hkey hnl
    unfold store_keyed_scalar
    have hcontains : forced_arrays.contains key = true := List.elem_eq_true_of_mem hkey
    rw [hcontains]
    simp [hnl]

/-- Witness for C9: the typing theorem applied at concrete scalars —
`"1.5"` becomes a float, `"-42"` an integer, `"hello"` stays a string on
the alphanumeric fast path, `" abc"` stays a (stripped) string, and the
forced-array key `"ports"` wraps its cleaned scalar in a sequence. -/
theorem clean_value_scalar_typing_witness :
    clean_value (.str "1.5") = .float "1.5" ∧
    (∃ n : Int, clean_value (.str "-42") = .int n) ∧
    clean_value (.str "hello") = .str "hello" ∧
    clean_value (.str " abc") = .str "abc" ∧
    store_keyed_scalar [] "ports" (.str "x") =
      ymSet [] "ports" (.seq [clean_value (.str "x")]) :=
  ⟨(clean_value_scalar_typing.2.1 "1.5" (by decide)).1 (by decide),
   (clean_value_scalar_typing.2.1 "-42" (by decide)).2 (by decide),
   clean_value_scalar_typing.2.2.1 "hello" (by decide) (by decide) (by decide),
   clean_value_scalar_typing.2.2.2.1 " abc" (by decide) (by decide) (by decide)
     (by decide),
   clean_value_scalar_typing.2.2.2.2.2 [] "ports" (.str "x") (by decide) rfl⟩

/-- C1.  The claim asserts that for a `DEPLOYMENT_SELECTOR` document with
no `spec.selector` and absent/empty template labels, `migrate` returns
the input unchanged (apiVersion still deprecated) and the audit records
the failure.  The code diverges: `_fix_deployment_selector` swaps
`apiVersion` *before* checking the labels, and `migrate` reacts to the
`False` return only by skipping the success audit line.  Evaluating the
embedded `migrate` on such a document (deprecated `extensions/v1beta1`
Deployment, empty `spec`, target `v1.29`) yields a *changed* document —
`apiVersion` is already `apps/v1`, with no selector added — and an
*empty* audit list. -/
theorem migrate_deployment_selector_unfixable_divergence :
    migrate "v1.29"
      [("apiVersion", Yaml.str "extensions/v1beta1"), ("kind", Yaml.str "Deployment"),
       ("metadata", Yaml.map [("name", Yaml.str "web")]), ("spec", Yaml.map [])] =
    ([("apiVersion", Yaml.str "apps/v1"), ("kind", Yaml.str "Deployment"),
      ("metadata", Yaml.map [("name", Yaml.str "web")]), ("spec", Yaml.map [])],
     []) := by
  rfl

/-- C2.  The claim asserts that every workload document in the list has
its untagged/`:latest` containers flagged, regardless of position.  In
the source the container scan sits *outside* the `for resource in
resources:` loop, so only the last list element is scanned: a Deployment
with an untagged image yields the `images/no-latest` error finding when
it is the only (hence last) element, but yields nothing when a ConfigMap
follows it in the list. -/
theorem image_analyzer_only_last_document_divergence :
    (image_analyze
      [Yaml.map [("apiVersion", Yaml.str "apps/v1"), ("kind", Yaml.str "Deployment"),
        ("metadata", Yaml.map [("name", Yaml.str "web")]),
        ("spec", Yaml.map [("template", Yaml.map [("spec", Yaml.map [("containers",
          Yaml.seq [Yaml.map [("name", Yaml.str "app"),
            ("image", Yaml.str "nginx")]])])])])]] =
      .ok [{ analyzer_name := "image-tag-check"
             severity := "error"
             message := "Container uses 'nginx'. Do not use ':latest' tag in production."
             resource_name := "web"
             resource_kind := "Deployment"
             file_path := "unknown"
             rule_id := some "images/no-latest"
             line_number := some 0 }]) ∧
    (image_analyze
      [Yaml.map [("apiVersion", Yaml.str "apps/v1"), ("kind", Yaml.str "Deployment"),
        ("metadata", Yaml.map [("name", Yaml.str "web")]),
        ("spec", Yaml.map [("template", Yaml.map [("spec", Yaml.map [("containers",
          Yaml.seq [Yaml.map [("name", Yaml.str "app"),
            ("image", Yaml.str "nginx")]])])])])],
       Yaml.map [("apiVersion", Yaml.str "v1"), ("kind", Yaml.str "ConfigMap"),
        ("metadata", Yaml.map [("name", Yaml.str "cfg")])]] =
      .ok []) := by
  exact ⟨rfl, rfl⟩

/-- C6.  The claim asserts ERROR severity for Ingress backends whose
Service is missing or whose port matches none of the Service's exposed
ports.  In the source the severity is chosen by
`"ERROR" if "Missing" in issue["message"] else "WARNING"`, but both
issue messages spell "missing" in lower case (or not at all), so both
findings come out WARNING: evaluated on an Ingress whose backend names
an absent Service, and on one whose port `80` matches neither `8080`
nor `http` of the existing Service, each finding has severity
`"WARNING"` (the port finding's suggestion does enumerate the allowed
ports). -/
theorem ingress_backend_severity_divergence :
    (cross_analyze (fun _ _ => 0) false
      [{ kind := some "Ingress", name := some "web",
         ingress_backends := [[("service", Yaml.str "api"), ("port", Yaml.int 80)]] }] =
      [{ analyzer_name := "cross-resource-analyzer"
         severity := "WARNING"
         message := "Ingress references missing Service 'api'."
         resource_name := "web"
         resource_kind := "Ingress"
         file_path := "unknown"
         suggestion := some "Ensure Service exists in the same namespace."
         fix_available := false }]) ∧
    (cross_analyze (fun _ _ => 0) false
      [{ kind := some "Ingress", name := some "web",
         ingress_backends := [[("service", Yaml.str "api"), ("port", Yaml.int 80)]] },
       { kind := some "Service", name := some "api",
         service_ports := [[("port", Yaml.int 8080), ("name", Yaml.str "http")]] }] =
      [{ analyzer_name := "cross-resource-analyzer"
         severity := "WARNING"
         message := "Ingress references port '80' on Service 'api', which exposes: 8080, http."
         resource_name := "web"
         resource_kind := "Ingress"
         file_path := "unknown"
         suggestion := some "Update Ingress to use one of: 8080, http"
         fix_available := false }]) := by
  exact ⟨rfl, rfl⟩

/-- Identity of the hashable-fragment model on table misses (helper for
the amended C7 theorem below). -/
theorem migrate_identity_on_non_deprecated (target_version : String) (doc : YMap)
    (h : lookupDep (ymGetD doc "apiVersion" (.str "")) (ymGetD doc "kind" (.str "")) =
      none) :
    migrate target_version doc = (doc, []) := by
  simp [migrate, is_removed_raw, h]

/-- C7 counterexample.  The claim asserts the migrator is the identity on
*every* document whose `(apiVersion, kind)` pair is not a key of the
deprecation table.  A document whose `apiVersion` is a truthy dict (as
the structurer can produce for a nested `apiVersion:` block) has no such
key — yet `migrate` does not return it: it passes the truthiness guard
and reaches `DEPRECATED_APIS.get((api_version, kind))` in
`DeprecationChecker.check`, outside the strategy `try`, where the
unhashable tuple component raises `TypeError`. -/
theorem migrate_unhashable_api_counterexample :
    migrateE "v1.29"
      [("apiVersion", Yaml.map [("group", Yaml.str "apps")]),
       ("kind", Yaml.str "ConfigMap")] =
    .error "TypeError: unhashable type" := by
  rfl

/-- C7 (amended).  For every document whose truthy `apiVersion`/`kind`
values are hashable (not dicts or lists) and whose `(apiVersion, kind)`
pair is not a key of the deprecation table — missing or falsy fields
included — `MigrationEngine.migrate` raises nothing and returns a
document equal to its input with an empty audit list. -/
theorem migrate_identity_on_non_deprecated_hashable (target_version : String)
    (doc : YMap)
    (hapi : (ymGetD doc "apiVersion" (.str "")).truthy = true →
      yamlHashable (ymGetD doc "apiVersion" (.str "")) = true)
    (hkind : (ymGetD doc "kind" (.str "")).truthy = true →
      yamlHashable (ymGetD doc "kind" (.str "")) = true)
    (h : lookupDep (ymGetD doc "apiVersion" (.str ""))
        (ymGetD doc "kind" (.str "")) = none) :
    migrateE target_version doc = .ok (doc, []) := by
  unfold migrateE
  rw [if_neg ?hc, migrate_identity_on_non_deprecated target_version doc h]
  case hc =>
    intro hcond
    simp only [Bool.and_eq_true, Bool.not_eq_true'] at hcond
    obtain ⟨⟨ht1, ht2⟩, hn⟩ := hcond
    rw [hapi ht1, hkind ht2] at hn
    cases hn

/-- Witness for C7's amended theorem: a `v1` ConfigMap has hashable
string fields, misses the table, and passes through unchanged with no
exception. -/
theorem migrate_identity_on_non_deprecated_hashable_witness :
    yamlHashable (ymGetD [("apiVersion", Yaml.str "v1"),
      ("kind", Yaml.str "ConfigMap")] "apiVersion" (.str "")) = true ∧
    yamlHashable (ymGetD [("apiVersion", Yaml.str "v1"),
      ("kind", Yaml.str "ConfigMap")] "kind" (.str "")) = true ∧
    lookupDep
      (ymGetD [("apiVersion", Yaml.str "v1"), ("kind", Yaml.str "ConfigMap")]
        "apiVersion" (.str ""))
      (ymGetD [("apiVersion", Yaml.str "v1"), ("kind", Yaml.str "ConfigMap")]
        "kind" (.str "")) = none ∧
    migrateE "v1.29" [("apiVersion", Yaml.str "v1"), ("kind", Yaml.str "ConfigMap")] =
      .ok ([("apiVersion", Yaml.str "v1"), ("kind", Yaml.str "ConfigMap")], []) :=
  ⟨rfl, rfl, rfl,
    migrate_identity_on_non_deprecated_hashable "v1.29" _
      (fun _ => rfl) (fun _ => rfl) rfl⟩

/-- C4.  `heal_model` is a total function of the raw text and the
collaborators' outcomes — every stage the source wraps in `try`/`except`
may raise arbitrarily and the pipeline still returns a
`(healed_text, audit_log, score, identities, findings)` tuple (the one
external call reached outside any `try`, the `ruamel` dump inside
`YamlrStructurer.serialize`, enters through its interface as a total
function, so its own failure modes are outside this repository).  On a
catastrophic lexer failure the result is exactly the raw input with the
single CRITICAL audit entry and score 0; on a catastrophic scanner
failure it is the raw input with the Stage 0–2 audit followed by the
CRITICAL entry, score 0, and no identities or findings. -/
theorem heal_returns_and_catastrophic_paths
    (c : PipelineComponents) (raw_yaml : String) (compact : Bool)
    (cluster_version : Option String) (e : String) :
    (c.lexShard raw_yaml = .error e →
      heal_model c raw_yaml compact cluster_version =
        (raw_yaml, ["CRITICAL: Lexing failed - " ++ e], 0, [], [])) ∧
    (∀ shards, c.lexShard raw_yaml = .ok shards →
      c.scanShards shards = .error e →
      heal_model c raw_yaml compact cluster_version =
        (raw_yaml, stage012Audit c shards ++ ["CRITICAL: Scanner failed - " ++ e],
          0, [], [])) := by
  constructor
  · intro h
    simp [heal_model, h]
  · intro shards h1 h2
    simp [heal_model, h1, h2]

/-- Witness for C4: concrete collaborator sets whose lexer (resp.
scanner) raises `boom` produce exactly the claimed catastrophic
results. -/
theorem heal_returns_and_catastrophic_paths_witness :
    heal_model { trivialParts with lexShard := fun _ => .error "boom" }
        "kind: Pod" false none =
      ("kind: Pod", ["CRITICAL: Lexing failed - boom"], 0, [], []) ∧
    heal_model { trivialParts with scanShards := fun _ => .error "boom" }
        "kind: Pod" false none =
      ("kind: Pod",
       ["Stage 0: Internal pipeline state reset",
        "Stage 1: Lexer produced 0 shards",
        "Stage 1: No lexical repairs needed (clean YAML)",
        "Stage 2: Layout and comment metadata generated",
        "CRITICAL: Scanner failed - boom"], 0, [], []) :=
  ⟨(heal_returns_and_catastrophic_paths _ _ false none "boom").1 rfl,
   (heal_returns_and_catastrophic_paths _ _ false none "boom").2 [] rfl rfl⟩

/-- C5 counterexample.  The claim asserts that a `volume_refs` entry with
no same-namespace PVC of that name is reported (a PVC of the same name in
a *different* namespace must not satisfy it).  The detector collects
`pvc_names` with no namespace at all: a Deployment in `prod` referencing
PVC `data` is *not* reported when a PVC named `data` exists only in
`dev`. -/
theorem broken_volume_namespace_counterexample :
    cross_analyze (fun _ _ => 0) false
      [{ kind := some "Deployment", name := some "app", nspace := some "prod",
         volume_refs := ["data"] },
       { kind := some "PersistentVolumeClaim", name := some "data",
         nspace := some "dev" }] = [] := by
  rfl

/-- Membership of one broken-volume record in the detector output. -/
theorem detect_broken_volumes_mem (ws pvcs : List ManifestIdentity)
    (w : ManifestIdentity) (hw : w ∈ ws) (ref : String)
    (h1 : ref ∈ w.volume_refs)
    (h2 : (pvcs.filterMap (·.name)).contains ref = false) :
    (⟨w.kind, w.name, ref, nsOrDefault w.nspace, filePathOf w⟩ : BrokenVolume) ∈
      detect_broken_volumes ws pvcs := by
  induction ws with
  | nil => cases hw
  | cons w' rest ih =>
      simp only [detect_broken_volumes, List.foldr_cons] at ih ⊢
      rcases List.mem_cons.mp hw with h | h
      · subst h
        refine List.mem_append_left _ (List.mem_filterMap.mpr ⟨ref, h1, ?_⟩)
        simp only [h2]
        simp
      · exact List.mem_append_right _ (ih h)

/-- C5 amended.  What the code establishes instead: a `volume_refs`
entry of a workload (kind Deployment/StatefulSet/DaemonSet/Pod) that
matches no PVC name *anywhere in the run, regardless of namespace* is
reported by `analyze` as an ERROR-severity Broken Volume finding. -/
theorem broken_volume_reported_globally (ratio : String → String → ℚ)
    (pro_mode : Bool) (identities : List ManifestIdentity)
    (w : ManifestIdentity) (hw : w ∈ identities)
    (hk : w.kind = some "Deployment" ∨ w.kind = some "StatefulSet" ∨
      w.kind = some "DaemonSet" ∨ w.kind = some "Pod")
    (ref : String) (h1 : ref ∈ w.volume_refs)
    (h2 : (((identities.filter (fun i => i.kind = some "PersistentVolumeClaim")).filterMap
      (·.name)).contains ref) = false) :
    ({ analyzer_name := "cross-resource-analyzer"
       severity := "ERROR"
       message := "Broken Volume: references missing PVC '" ++ ref ++ "'."
       resource_name := optStr w.name
       resource_kind := optStr w.kind
       file_path := filePathOf w
       suggestion := some ("Ensure PVC '" ++ ref ++ "' exists in namespace '" ++
         nsOrDefault w.nspace ++ "'.")
       fix_available := false } : AnalysisResult) ∈
      cross_analyze ratio pro_mode identities := by
  unfold cross_analyze
  apply List.mem_append_right
  refine List.mem_map.mpr
    ⟨⟨w.kind, w.name, ref, nsOrDefault w.nspace, filePathOf w⟩, ?_, rfl⟩
  apply detect_broken_volumes_mem _ _ w _ ref h1 h2
  exact List.mem_filter.mpr ⟨hw, by simpa using hk⟩

/-- Witness for C5's amended theorem: a Deployment referencing PVC
`data` in a run with no PVC at all receives the ERROR finding. -/
theorem broken_volume_reported_globally_witness :
    ({ analyzer_name := "cross-resource-analyzer"
       severity := "ERROR"
       message := "Broken Volume: references missing PVC 'data'."
       resource_name := "app"
       resource_kind := "Deployment"
       file_path := "unknown"
       suggestion := some "Ensure PVC 'data' exists in namespace 'prod'."
       fix_available := false } : AnalysisResult) ∈
      cross_analyze (fun _ _ => 0) false
        [{ kind := some "Deployment", name := some "app", nspace := some "prod",
           volume_refs := ["data"] }] :=
  broken_volume_reported_globally (fun _ _ => 0) false _
    { kind := some "Deployment", name := some "app", nspace := some "prod",
      volume_refs := ["data"] }
    (List.mem_singleton.mpr rfl) (Or.inl rfl) "data" (List.mem_singleton.mpr rfl)
    (by rfl)

/-! ## C8: boolean protection in the lexer -/

theorem alpha_char_facts (c : Char) (h : c.isAlpha = true) :
    c.isWhitespace = false ∧
    ∀ t : Char, (t.toNat < 65 ∨ (90 < t.toNat ∧ t.toNat < 97) ∨ 122 < t.toNat) →
      c ≠ t := by
  have hval : (65 ≤ c.toNat ∧ c.toNat ≤ 90) ∨ (97 ≤ c.toNat ∧ c.toNat ≤ 122) := by
    have h' := h
    simp only [Char.isAlpha, Char.isUpper, Char.isLower, Bool.or_eq_true,
      Bool.and_eq_true, decide_eq_true_eq, ge_iff_le] at h'
    rcases h' with ⟨a1, a2⟩ | ⟨a1, a2⟩
    · have l1 := UInt32.le_def.mp a1
      have l2 := UInt32.le_def.mp a2
      simp only [BitVec.le_def] at l1 l2
      exact Or.inl ⟨l1, l2⟩
    · have l1 := UInt32.le_def.mp a1
      have l2 := UInt32.le_def.mp a2
      simp only [BitVec.le_def] at l1 l2
      exact Or.inr ⟨l1, l2⟩
  constructor
  · simp only [Char.isWhitespace, Bool.or_eq_false_iff, decide_eq_false_iff_not]
    refine ⟨⟨⟨?_, ?_⟩, ?_⟩, ?_⟩ <;> rintro rfl <;> revert hval <;> decide
  · rintro t ht rfl
    rcases ht with h1 | ⟨h2, h3⟩ | h4 <;> omega

theorem norway_char_facts (x : Char)
    (h : x.toLower ∈ (['y', 'e', 's', 'n', 'o', 'f'] : List Char)) :
    (∀ t : Char, t.toNat < 65 → x ≠ t) ∧ x.isWhitespace = false ∧
    (['\'', '"'] : List Char).contains x = false := by
  have hne : ∀ t : Char, t.toNat < 65 → x ≠ t := by
    unfold Char.toLower at h
    by_cases hr : 65 ≤ x.toNat ∧ x.toNat ≤ 90
    · intro t ht heq
      rw [heq] at hr
      omega
    · rw [if_neg hr] at h
      intro t ht
      fin_cases h <;> (intro heq; rw [← heq] at ht; revert ht; decide)
  refine ⟨hne, ?_, ?_⟩
  · simp only [Char.isWhitespace, Bool.or_eq_false_iff, decide_eq_false_iff_not]
    exact ⟨⟨⟨hne ' ' (by decide), hne '\t' (by decide)⟩, hne '\r' (by decide)⟩,
      hne '\n' (by decide)⟩
  · have h1 := hne '\'' (by decide)
    have h2 := hne '"' (by decide)
    simp [h1, h2]

theorem norway_mem_chars (l : List Char) (h : l ∈ norwayWords) :
    ∀ x ∈ l, x ∈ (['y', 'e', 's', 'n', 'o', 'f'] : List Char) := by
  fin_cases h <;> decide

theorem breakAtFirst_append (p : Char → Bool) (A B : List Char) (c : Char)
    (hA : ∀ a ∈ A, p a = false) (hc : p c = true) :
    breakAtFirst p (A ++ c :: B) = (A, some B) := by
  induction A with
  | nil =>
      unfold breakAtFirst
      simp [hc]
  | cons a A ih =>
      rw [List.cons_append]
      unfold breakAtFirst
      rw [if_neg (by simp [hA a (List.mem_cons_self _ _)]),
        ih (fun x hx => hA x (List.mem_cons_of_mem _ hx))]

theorem trimLeftC_cons_of_not (k : Char) (l : List Char)
    (hk : k.isWhitespace = false) : trimLeftC (k :: l) = k :: l := by
  unfold trimLeftC
  rw [List.dropWhile_cons_of_neg (by simp [hk])]

theorem trimRightC_concat (l : List Char) (d : Char)
    (hd : d.isWhitespace = false) : trimRightC (l ++ [d]) = l ++ [d] := by
  unfold trimRightC
  rw [List.reverse_append]
  simp only [List.reverse_cons, List.reverse_nil, List.nil_append,
    List.singleton_append]
  rw [List.dropWhile_cons_of_neg (by simp [hd])]
  simp

/-- C8.  A lexed line `key: v` whose bare value `v` lowercased is one of
the YAML 1.1 boolean words (`yes/no/y/n/on/off`) has its value stored
wrapped in double quotes by `_extract_semantics`, with the
`quote_repairs` statistic incremented — the scalar round-trips as a
quoted string instead of a boolean. -/
theorem extract_semantics_norway_quoting (s key v : String)
    (hline : s.data = key.data ++ ':' :: ' ' :: v.data)
    (hkeyne : key.data ≠ [])
    (hkeyalpha : ∀ c ∈ key.data, c.isAlpha = true)
    (hv : v.data.map Char.toLower ∈ norwayWords) :
    extract_semantics s = ⟨key, some ("\"" ++ v ++ "\""), false, 1⟩ := by
  obtain ⟨k0, krest, hkd⟩ : ∃ k0 krest, key.data = k0 :: krest := by
    cases hk : key.data with
    | nil => exact absurd hk hkeyne
    | cons a l => exact ⟨a, l, rfl⟩
  have halpha0 : k0.isAlpha = true :=
    hkeyalpha k0 (by rw [hkd]; exact List.mem_cons_self _ _)
  obtain ⟨hk0ws, hk0ne⟩ := alpha_char_facts k0 halpha0
  have hk0dash : k0 ≠ '-' := hk0ne '-' (Or.inl (by decide))
  have hk0amp : k0 ≠ '&' := hk0ne '&' (Or.inl (by decide))
  have hk0star : k0 ≠ '*' := hk0ne '*' (Or.inl (by decide))
  have hk0bang : k0 ≠ '!' := hk0ne '!' (Or.inl (by decide))
  have hk0dq : k0 ≠ '"' := hk0ne '"' (Or.inl (by decide))
  have hk0sq : k0 ≠ '\'' := hk0ne '\'' (Or.inl (by decide))
  have hvfacts : ∀ x ∈ v.data,
      (∀ t : Char, t.toNat < 65 → x ≠ t) ∧ x.isWhitespace = false ∧
      (['\'', '"'] : List Char).contains x = false :=
    fun x hx => norway_char_facts x (norway_mem_chars _ hv _ (List.mem_map_of_mem _ hx))
  have hvnws : ∀ x ∈ v.data, x.isWhitespace = false := fun x hx => (hvfacts x hx).2.1
  have hvne : v.data ≠ [] := by
    intro h0
    rw [h0] at hv
    exact absurd hv (by decide)
  obtain ⟨vinit, vlast, hvsplit⟩ : ∃ L b, v.data = L ++ [b] := by
    rcases List.eq_nil_or_concat v.data with h0 | ⟨L, b, h1⟩
    · exact absurd h0 hvne
    · exact ⟨L, b, by simpa [List.concat_eq_append] using h1⟩
  have hvlastws : vlast.isWhitespace = false :=
    hvnws vlast (by rw [hvsplit]; exact List.mem_append_right _ (List.mem_singleton.mpr rfl))
  have hkeyws : ∀ x ∈ key.data, x.isWhitespace = false :=
    fun x hx => (alpha_char_facts x (hkeyalpha x hx)).1
  have hkeyquote : ∀ x ∈ key.data, (['"', '\''] : List Char).contains x = false := by
    intro x hx
    have h1 := (alpha_char_facts x (hkeyalpha x hx)).2 '"' (Or.inl (by decide))
    have h2 := (alpha_char_facts x (hkeyalpha x hx)).2 '\'' (Or.inl (by decide))
    simp [h1, h2]
  have hkeycolon : ∀ a ∈ key.data, decide (a = ':') = false := by
    intro a ha
    simp [(alpha_char_facts a (hkeyalpha a ha)).2 ':' (Or.inl (by decide))]
  have hclean : trimC s.data = s.data := by
    rw [hline, hkd, List.cons_append]
    unfold trimC
    rw [trimLeftC_cons_of_not _ _ hk0ws, hvsplit]
    have hsh : k0 :: (krest ++ ':' :: ' ' :: (vinit ++ [vlast])) =
        (k0 :: (krest ++ ':' :: ' ' :: vinit)) ++ [vlast] := by simp
    rw [hsh, trimRightC_concat _ _ hvlastws]
  have hhead : (key.data ++ ':' :: ' ' :: v.data).head? = some k0 := by
    rw [hkd]; rfl
  have hempty : (key.data ++ ':' :: ' ' :: v.data).isEmpty = false := by
    rw [hkd]; rfl
  have hpre : (['-', '-', '-'] : List Char).isPrefixOf
      (key.data ++ ':' :: ' ' :: v.data) = false := by
    rw [hkd, List.cons_append]
    unfold List.isPrefixOf
    rw [show ('-' == k0) = false by simp [Ne.symm hk0dash], Bool.false_and]
  have hnodash : ¬((key.data ++ ':' :: ' ' :: v.data).head? = some '-') := by
    rw [hhead]
    simp [hk0dash]
  have hcolon : (key.data ++ ':' :: ' ' :: v.data).contains ':' = true :=
    List.elem_eq_true_of_mem (List.mem_append_right _ (List.mem_cons_self _ _))
  have hval : trimC (' ' :: v.data) = v.data := by
    unfold trimC trimLeftC
    rw [List.dropWhile_cons_of_pos (by decide),
      dropWhile_eq_self_of_none _ _ hvnws]
    unfold trimRightC
    rw [dropWhile_eq_self_of_none _ _ (fun x hx => hvnws x (List.mem_reverse.mp hx)),
      List.reverse_reverse]
  have hprot : norwayWords.contains (v.data.map Char.toLower) = true :=
    List.elem_eq_true_of_mem hv
  have hkeytrim : trimC key.data = key.data := by
    rw [trimC_eq_trimChars]
    exact trimChars_eq_self _ hkeyws
  have hkeystrip : stripCharsC ['"', '\''] key.data = key.data :=
    stripCharsC_eq_self _ _ hkeyquote
  unfold extract_semantics
  unfold extractSemanticsAux
  rw [hclean, hline]
  dsimp only
  rw [if_neg (by rw [hempty, hpre]; decide)]
  rw [if_neg (by rw [hhead]; simp [hk0amp, hk0star, hk0bang])]
  rw [if_neg hnodash]
  rw [if_neg (fun h => hnodash h.1)]
  rw [if_pos hcolon]
  rw [hhead]
  dsimp only
  rw [if_neg (by simp [hk0dq, hk0sq])]
  dsimp only
  rw [breakAtFirst_append _ key.data (' ' :: v.data) ':' hkeycolon (by decide)]
  dsimp only
  dsimp only [Option.getD]
  rw [hval, hprot, hkeytrim, hkeystrip]
  rw [show (decide (some k0 = some '-')) = false from by simp [hk0dash]]
  rfl

/-- Witness for C8: the lexed line `code: NO` stores the value `"NO"`
(quoted) with one quote repair. -/
theorem extract_semantics_norway_quoting_witness :
    extract_semantics "code: NO" = ⟨"code", some "\"NO\"", false, 1⟩ :=
  extract_semantics_norway_quoting "code: NO" "code" "NO" rfl (by decide)
    (by decide) (by decide)

/-! ## C10: heap lemmas for the frame property -/

theorem getH_append (h : Heap) (nd : HNode) (b : Nat) (hb : b < h.length) :
    getH (h ++ [nd]) b = getH h b := by
  unfold getH
  rw [List.getD_eq_getElem?_getD, List.getD_eq_getElem?_getD,
    List.getElem?_append_left hb]

theorem getH_append_right (h : Heap) (nd : HNode) :
    getH (h ++ [nd]) h.length = nd := by
  unfold getH
  rw [List.getD_eq_getElem?_getD, List.getElem?_concat_length]
  rfl

theorem getH_out_of_range (h : Heap) (a : Nat) (ha : h.length ≤ a) :
    getH h a = .scalar .null := by
  unfold getH
  rw [List.getD_eq_getElem?_getD, List.getElem?_eq_none ha]
  rfl

theorem setH_out (h : Heap) (a : Nat) (nd : HNode) (ha : h.length ≤ a) :
    setH h a nd = h := by
  unfold setH
  exact List.set_eq_of_length_le ha

theorem getH_set_ne (h : Heap) (a b : Nat) (nd : HNode) (hne : b ≠ a) :
    getH (setH h a nd) b = getH h b := by
  unfold getH setH
  rw [List.getD_eq_getElem?_getD, List.getD_eq_getElem?_getD,
    List.getElem?_set_ne (fun h => hne h.symm)]

theorem getH_set_self (h : Heap) (a : Nat) (nd : HNode) (ha : a < h.length) :
    getH (setH h a nd) a = nd := by
  unfold getH setH
  rw [List.getD_eq_getElem?_getD, List.getElem?_set_self ha]
  rfl

theorem RCa_append (n : Nat) (h : Heap) (nd : HNode)
    (hr : RCa n h) (hch : ∀ c ∈ nd.children, n ≤ c) :
    RCa n (h ++ [nd]) := by
  intro a ha c hc
  by_cases hlt : a < h.length
  · rw [getH_append h nd a hlt] at hc
    exact hr a ha c hc
  · by_cases heq : a = h.length
    · subst heq
      rw [getH_append_right] at hc
      exact hch c hc
    · rw [getH_out_of_range] at hc
      · cases hc
      · simp only [List.length_append, List.length_cons, List.length_nil]
        omega

theorem RCa_set (n : Nat) (h : Heap) (a : Nat) (nd : HNode)
    (hr : RCa n h) (hch : ∀ c ∈ nd.children, n ≤ c) :
    RCa n (setH h a nd) := by
  intro b hb c hc
  by_cases heq : b = a
  · subst heq
    by_cases hlt : b < h.length
    · rw [getH_set_self h b nd hlt] at hc
      exact hch c hc
    · rw [setH_out h b nd (by omega)] at hc
      exact hr b hb c hc
  · rw [getH_set_ne h a b nd heq] at hc
    exact hr b hb c hc

theorem esGet_mem (es : List (String × Nat)) (k : String) (r : Nat)
    (h : esGet es k = some r) : r ∈ es.map (·.2) := by
  unfold esGet at h
  cases hf : es.find? (fun kv => kv.1 = k) with
  | none => rw [hf] at h; cases h
  | some kv =>
      rw [hf] at h
      have hm := List.mem_of_find?_eq_some hf
      have : kv.2 = r := by injection h
      rw [← this]
      exact List.mem_map_of_mem _ hm

theorem esSet_children_sub (es : List (String × Nat)) (k : String) (s : Nat) :
    ∀ c ∈ (esSet es k s).map (·.2), c = s ∨ c ∈ es.map (·.2) := by
  induction es with
  | nil =>
      intro c hc
      unfold esSet at hc
      simp at hc
      exact Or.inl hc
  | cons kv rest ih =>
      intro c hc
      obtain ⟨k', v'⟩ := kv
      unfold esSet at hc
      by_cases heq : k' = k
      · rw [if_pos heq] at hc
        simp only [List.map_cons, List.mem_cons] at hc
        rcases hc with hc | hc
        · exact Or.inl hc
        · exact Or.inr (by simp only [List.map_cons, List.mem_cons]; exact Or.inr hc)
      · rw [if_neg heq] at hc
        simp only [List.map_cons, List.mem_cons] at hc
        rcases hc with hc | hc
        · exact Or.inr (by simp only [List.map_cons, List.mem_cons]; exact Or.inl hc)
        · rcases ih c hc with hc' | hc'
          · exact Or.inl hc'
          · exact Or.inr (by simp only [List.map_cons, List.mem_cons]; exact Or.inr hc')

theorem frames_weaken {α : Type} {n : Nat} {m : HProg α} {Q R : α → Prop}
    (hm : Frames n m Q) (hqr : ∀ x, Q x → R x) : Frames n m R := by
  intro h hlen hr
  obtain ⟨h1, h2, h3, h4⟩ := hm h hlen hr
  exact ⟨h1, h2, h3, fun x hx => hqr x (h4 x hx)⟩

theorem frames_pure {α : Type} (n : Nat) (x : α) (Q : α → Prop) (hx : Q x) :
    Frames n (HProg.pure x) Q := by
  intro h hlen hr
  refine ⟨hlen, hr, fun _ _ => rfl, fun y hy => ?_⟩
  have : x = y := by injection hy
  rw [← this]
  exact hx

theorem frames_throw {α : Type} (n : Nat) (e : String) (Q : α → Prop) :
    Frames n (hThrow e : HProg α) Q :=
  fun _ hlen hr => ⟨hlen, hr, fun _ _ => rfl, fun _ hx => by cases hx⟩

theorem frames_bind {α β : Type} {n : Nat} {m : HProg α} {f : α → HProg β}
    {Q : α → Prop} {R : β → Prop}
    (hm : Frames n m Q) (hf : ∀ x, Q x → Frames n (f x) R) :
    Frames n (m >>= f) R := by
  intro h hlen hr
  obtain ⟨h1, h2, h3, h4⟩ := hm h hlen hr
  have hbind : (m >>= f) h = HProg.bind m f h := rfl
  rw [hbind]
  unfold HProg.bind
  cases hmh : m h with
  | mk h' r =>
      cases r with
      | ok x =>
          have hx : Q x := h4 x (by rw [hmh])
          rw [hmh] at h1 h2 h3
          obtain ⟨g1, g2, g3, g4⟩ := hf x hx h' h1 h2
          exact ⟨g1, g2, fun b hb => (g3 b hb).trans (h3 b hb), g4⟩
      | error e =>
          rw [hmh] at h1 h2 h3
          exact ⟨h1, h2, h3, fun x hx => by cases hx⟩

theorem frames_get (n a : Nat) (ha : n ≤ a) :
    Frames n (hGet a) (fun node => ∀ c ∈ node.children, n ≤ c) := by
  intro h hlen hr
  refine ⟨hlen, hr, fun _ _ => rfl, fun x hx => ?_⟩
  have : getH h a = x := by injection hx
  rw [← this]
  exact hr a ha

theorem frames_get_triv (n a : Nat) :
    Frames n (hGet a) (fun _ => True) :=
  fun _ hlen hr => ⟨hlen, hr, fun _ _ => rfl, fun _ _ => trivial⟩

theorem frames_alloc (n : Nat) (nd : HNode) (hch : ∀ c ∈ nd.children, n ≤ c) :
    Frames n (hAlloc nd) (fun addr => n ≤ addr) := by
  intro h hlen hr
  refine ⟨?_, ?_, ?_, ?_⟩
  · simp only [hAlloc, allocH, List.length_append, List.length_cons,
      List.length_nil]
    omega
  · exact RCa_append n h nd hr hch
  · intro b hb
    exact getH_append h nd b (by omega)
  · intro x hx
    have : h.length = x := by injection hx
    rw [← this]
    exact hlen

theorem frames_set (n a : Nat) (nd : HNode) (ha : n ≤ a)
    (hch : ∀ c ∈ nd.children, n ≤ c) :
    Frames n (hSet a nd) (fun _ => True) := by
  intro h hlen hr
  refine ⟨?_, RCa_set n h a nd hr hch, ?_, fun _ _ => trivial⟩
  · simp only [hSet, setH, List.length_set]
    exact hlen
  · intro b hb
    exact getH_set_ne h a b nd (by omega)

theorem frames_setScalarKey (n a : Nat) (k : String) (v : Yaml) (ha : n ≤ a) :
    Frames n (hSetScalarKey a k v) (fun _ => True) := by
  unfold hSetScalarKey
  refine frames_bind (frames_get n a ha) ?_
  intro x hx
  cases x with
  | dict es =>
      refine frames_bind (frames_alloc n (.scalar v) (by intro c hc; cases hc)) ?_
      intro s hs
      refine frames_set n a _ ha ?_
      intro c hc
      rcases esSet_children_sub es k s c hc with rfl | hmem
      · exact hs
      · exact hx c hmem
  | scalar v' => exact frames_throw n _ _
  | list xs => exact frames_throw n _ _

theorem frames_setKeyAddr (n a : Nat) (k : String) (v : Nat) (ha : n ≤ a)
    (hv : n ≤ v) :
    Frames n (hSetKeyAddr a k v) (fun _ => True) := by
  unfold hSetKeyAddr
  refine frames_bind (frames_get n a ha) ?_
  intro x hx
  cases x with
  | dict es =>
      refine frames_set n a _ ha ?_
      intro c hc
      rcases esSet_children_sub es k v c hc with rfl | hmem
      · exact hv
      · exact hx c hmem
  | scalar v' => exact frames_throw n _ _
  | list xs => exact frames_throw n _ _

theorem frames_replaceApiVersion (n doc : Nat) (nv : String) (hdoc : n ≤ doc) :
    Frames n (hReplaceApiVersion doc nv) (fun _ => True) :=
  frames_setScalarKey n doc "apiVersion" (.str nv) hdoc

theorem frames_getAttr (n a : Nat) (k : String) (ha : n ≤ a) :
    Frames n (hGetAttr a k) (fun r => ∀ x, r = some x → n ≤ x) := by
  unfold hGetAttr
  refine frames_bind (frames_get n a ha) ?_
  intro x hx
  cases x with
  | dict es =>
      refine frames_pure n _ _ ?_
      intro y hy
      exact hx y (esGet_mem es k y hy)
  | scalar v => exact frames_throw n _ _
  | list xs => exact frames_throw n _ _

theorem frames_templateLabels (n spec : Nat) (hs : n ≤ spec) :
    Frames n (hTemplateLabels spec) (fun r => ∀ x, r = some x → n ≤ x) := by
  unfold hTemplateLabels
  refine frames_bind (frames_getAttr n spec "template" hs) ?_
  intro r hr
  cases r with
  | none =>
      refine frames_pure n _ _ ?_
      intro y hy
      cases hy
  | some t =>
      have ht : n ≤ t := hr t rfl
      refine frames_bind (frames_getAttr n t "metadata" ht) ?_
      intro r2 hr2
      cases r2 with
      | none =>
          refine frames_pure n _ _ ?_
          intro y hy
          cases hy
      | some md => exact frames_getAttr n md "labels" (hr2 md rfl)

theorem frames_truthy (n a : Nat) : Frames n (hTruthy a) (fun _ => True) := by
  unfold hTruthy
  exact frames_bind (frames_get_triv n a) (fun x _ => frames_pure n _ _ trivial)

theorem frames_metadataName (n doc : Nat) :
    Frames n (hMetadataName doc) (fun _ => True) := by
  unfold hMetadataName
  refine frames_bind (frames_get_triv n doc) ?_
  intro x _
  cases x with
  | dict es =>
      dsimp only
      cases esGet es "metadata" with
      | none => exact frames_throw n _ _
      | some mdA =>
          refine frames_bind (frames_get_triv n mdA) ?_
          intro y _
          cases y with
          | dict mes =>
              dsimp only
              cases esGet mes "name" with
              | none => exact frames_pure n _ _ trivial
              | some nA =>
                  exact frames_bind (frames_get_triv n nA)
                    (fun z _ => frames_pure n _ _ trivial)
          | scalar v => exact frames_throw n _ _
          | list xs => exact frames_throw n _ _
  | scalar v => exact frames_throw n _ _
  | list xs => exact frames_throw n _ _

theorem frames_mapM_loop {β : Type} (n : Nat) (f : Nat → HProg β) (xs : List Nat)
    (hf : ∀ x ∈ xs, Frames n (f x) (fun _ => True)) :
    ∀ acc : List β, Frames n (List.mapM.loop f xs acc) (fun _ => True) := by
  induction xs with
  | nil =>
      intro acc
      unfold List.mapM.loop
      exact frames_pure n _ _ trivial
  | cons x xs ih =>
      intro acc
      unfold List.mapM.loop
      refine frames_bind (hf x (List.mem_cons_self _ _)) ?_
      intro b _
      exact ih (fun y hy => hf y (List.mem_cons_of_mem _ hy)) (b :: acc)

theorem frames_mapM {β : Type} (n : Nat) (f : Nat → HProg β) (xs : List Nat)
    (hf : ∀ x ∈ xs, Frames n (f x) (fun _ => True)) :
    Frames n (xs.mapM f) (fun _ => True) := by
  unfold List.mapM
  exact frames_mapM_loop n f xs hf []

theorem frames_forM (n : Nat) (xs : List Nat) (f : Nat → HProg Unit)
    (hf : ∀ x ∈ xs, Frames n (f x) (fun _ => True)) :
    Frames n (xs.forM f) (fun _ => True) := by
  induction xs with
  | nil =>
      unfold List.forM
      exact frames_pure n _ _ trivial
  | cons x xs ih =>
      unfold List.forM
      refine frames_bind (hf x (List.mem_cons_self _ _)) ?_
      intro _ _
      exact ih (fun y hy => hf y (List.mem_cons_of_mem _ hy))

theorem frames_readStr (n : Nat) (w : String) (c : Nat) :
    Frames n (do
      match ← hGet c with
      | .scalar (.str t) => HProg.pure (t == w)
      | _ => HProg.pure false) (fun _ => True) := by
  refine frames_bind (frames_get_triv n c) ?_
  intro y _
  cases y with
  | scalar v =>
      cases v <;> exact frames_pure n _ _ trivial
  | dict es => exact frames_pure n _ _ trivial
  | list l => exact frames_pure n _ _ trivial

theorem frames_ite {α : Type} (n : Nat) (c : Prop) [Decidable c]
    (t e : HProg α) (Q : α → Prop)
    (ht : Frames n t Q) (he : Frames n e Q) :
    Frames n (if c then t else e) Q := by
  by_cases h : c
  · rw [if_pos h]; exact ht
  · rw [if_neg h]; exact he

theorem frames_optCases {α : Type} (n : Nat) (o : Option Nat)
    (g : HProg α) (f : Nat → HProg α) (Q : α → Prop)
    (hg : Frames n g Q) (hf : ∀ x, o = some x → Frames n (f x) Q) :
    Frames n (match o with | none => g | some x => f x) Q := by
  cases o with
  | none => exact hg
  | some x => exact hf x rfl

theorem frames_setPathType (n a : Nat) (ha : n ≤ a) :
    Frames n (hSetPathType a) (fun _ => True) := by
  unfold hSetPathType
  refine frames_bind (frames_get n a ha) ?_
  intro x hx
  cases x with
  | dict pm =>
      refine frames_ite n _ _ _ _ (frames_pure n _ _ trivial) ?_
      refine frames_bind
        (frames_alloc n (.scalar (.str "ImplementationSpecific"))
          (by intro c hc; cases hc)) ?_
      intro s hs
      refine frames_set n a _ ha ?_
      intro c hc
      rcases esSet_children_sub pm "pathType" s c hc with rfl | hmem
      · exact hs
      · exact hx c hmem
  | scalar v =>
      cases v with
      | str s =>
          exact frames_ite n _ _ _ _ (frames_pure n _ _ trivial) (frames_throw n _ _)
      | null => exact frames_throw n _ _
      | bool b => exact frames_throw n _ _
      | int i => exact frames_throw n _ _
      | float f => exact frames_throw n _ _
      | seq l => exact frames_throw n _ _
      | map m => exact frames_throw n _ _
  | list xs =>
      refine frames_bind (frames_mapM n _ xs (fun c _ => frames_readStr n "pathType" c)) ?_
      intro hits _
      exact frames_ite n _ _ _ _ (frames_pure n _ _ trivial) (frames_throw n _ _)

theorem frames_fixIngressRule (n a : Nat) (ha : n ≤ a) :
    Frames n (hFixIngressRule a) (fun _ => True) := by
  unfold hFixIngressRule
  refine frames_bind (frames_getAttr n a "http" ha) ?_
  intro r hr
  cases r with
  | none => exact frames_pure n _ _ trivial
  | some httpA =>
      have hh : n ≤ httpA := hr httpA rfl
      refine frames_bind (frames_getAttr n httpA "paths" hh) ?_
      intro r2 hr2
      cases r2 with
      | none => exact frames_pure n _ _ trivial
      | some pathsA =>
          refine frames_bind (frames_get n pathsA (hr2 pathsA rfl)) ?_
          intro y hy
          cases y with
          | list ps =>
              exact frames_forM n ps hSetPathType
                (fun x hx => frames_setPathType n x (hy x hx))
          | scalar v =>
              cases v with
              | str s =>
                  exact frames_ite n _ _ _ _ (frames_pure n _ _ trivial)
                    (frames_throw n _ _)
              | null => exact frames_throw n _ _
              | bool b => exact frames_throw n _ _
              | int i => exact frames_throw n _ _
              | float f => exact frames_throw n _ _
              | seq l => exact frames_throw n _ _
              | map m => exact frames_throw n _ _
          | dict pm =>
              exact frames_ite n _ _ _ _ (frames_pure n _ _ trivial)
                (frames_throw n _ _)

theorem frames_fixIngressV1 (n doc : Nat) (nv : String) (hdoc : n ≤ doc) :
    Frames n (hFixIngressV1 doc nv) (fun _ => True) := by
  unfold hFixIngressV1
  refine frames_bind (frames_replaceApiVersion n doc nv hdoc) ?_
  intro _ _
  refine frames_bind (frames_get n doc hdoc) ?_
  intro x hx
  cases x with
  | dict es =>
      refine frames_optCases n (esGet es "spec") _ _ _
        (frames_pure n _ _ trivial) ?_
      intro specA hsg
      have hs : n ≤ specA := hx specA (esGet_mem es "spec" specA hsg)
      refine frames_bind (frames_getAttr n specA "rules" hs) ?_
      intro r hr
      cases r with
      | none => exact frames_pure n _ _ trivial
      | some rulesA =>
          refine frames_bind (frames_get n rulesA (hr rulesA rfl)) ?_
          intro y hy
          cases y with
          | list rs =>
              refine frames_bind (frames_forM n rs hFixIngressRule
                (fun x hx2 => frames_fixIngressRule n x (hy x hx2))) ?_
              intro _ _
              exact frames_pure n _ _ trivial
          | scalar v =>
              cases v with
              | str s =>
                  exact frames_ite n _ _ _ _ (frames_pure n _ _ trivial)
                    (frames_throw n _ _)
              | null => exact frames_throw n _ _
              | bool b => exact frames_throw n _ _
              | int i => exact frames_throw n _ _
              | float f => exact frames_throw n _ _
              | seq l => exact frames_throw n _ _
              | map m => exact frames_throw n _ _
          | dict rm =>
              exact frames_ite n _ _ _ _ (frames_pure n _ _ trivial)
                (frames_throw n _ _)
  | scalar v => exact frames_throw n _ _
  | list xs => exact frames_throw n _ _

theorem frames_fixDeploymentSelector (n doc : Nat) (nv : String) (hdoc : n ≤ doc) :
    Frames n (hFixDeploymentSelector doc nv) (fun _ => True) := by
  unfold hFixDeploymentSelector
  refine frames_bind (frames_replaceApiVersion n doc nv hdoc) ?_
  intro _ _
  refine frames_bind (frames_get n doc hdoc) ?_
  intro x hx
  cases x with
  | dict es =>
      refine frames_optCases n (esGet es "spec") _ _ _
        (frames_pure n _ _ trivial) ?_
      intro specA hsg
      have hs : n ≤ specA := hx specA (esGet_mem es "spec" specA hsg)
      refine frames_bind (frames_get n specA hs) ?_
      intro y hy
      cases y with
      | dict sm =>
          refine frames_ite n _ _ _ _ (frames_pure n _ _ trivial) ?_
          refine frames_bind (frames_templateLabels n specA hs) ?_
          intro r hr
          cases r with
          | none => exact frames_pure n _ _ trivial
          | some labelsA =>
              have hl : n ≤ labelsA := hr labelsA rfl
              refine frames_bind (frames_truthy n labelsA) ?_
              intro b _
              refine frames_ite n _ _ _ _ ?_ (frames_pure n _ _ trivial)
              refine frames_bind (frames_alloc n
                (.dict [("matchLabels", labelsA)]) ?_) ?_
              · intro c hc
                have hcl : c = labelsA := by
                  simpa [HNode.children] using hc
                rw [hcl]
                exact hl
              · intro sel hsel
                refine frames_bind
                  (frames_setKeyAddr n specA "selector" sel hs hsel) ?_
                intro _ _
                refine frames_bind
                  (frames_setKeyAddr n doc "spec" specA hdoc hs) ?_
                intro _ _
                exact frames_pure n _ _ trivial
      | scalar v =>
          cases v with
          | str s =>
              exact frames_ite n _ _ _ _ (frames_pure n _ _ trivial)
                (frames_throw n _ _)
          | null => exact frames_throw n _ _
          | bool b => exact frames_throw n _ _
          | int i => exact frames_throw n _ _
          | float f => exact frames_throw n _ _
          | seq l => exact frames_throw n _ _
          | map m => exact frames_throw n _ _
      | list xs2 =>
          refine frames_bind (frames_mapM n _ xs2
            (fun c _ => frames_readStr n "selector" c)) ?_
          intro hits _
          exact frames_ite n _ _ _ _ (frames_pure n _ _ trivial)
            (frames_throw n _ _)
  | scalar v => exact frames_throw n _ _
  | list xs => exact frames_throw n _ _

theorem frames_runStrategy (n : Nat) (info : DeprecationInfo) (new_doc : Nat)
    (apiS kindS : String) (hnd : n ≤ new_doc) :
    Frames n (hRunStrategy info new_doc apiS kindS) (fun _ => True) := by
  unfold hRunStrategy
  refine frames_ite n _ _ _ _ ?_ ?_
  · refine frames_bind (frames_replaceApiVersion n new_doc info.replacement_api hnd) ?_
    intro _ _
    refine frames_bind (frames_metadataName n new_doc) ?_
    intro nm _
    exact frames_pure n _ _ trivial
  · refine frames_ite n _ _ _ _ ?_ ?_
    · refine frames_bind
        (frames_fixDeploymentSelector n new_doc info.replacement_api hnd) ?_
      intro okFix _
      refine frames_ite n _ _ _ _ ?_ (frames_pure n _ _ trivial)
      refine frames_bind (frames_metadataName n new_doc) ?_
      intro nm _
      exact frames_pure n _ _ trivial
    · refine frames_ite n _ _ _ _ ?_ ?_
      · refine frames_bind
          (frames_fixIngressV1 n new_doc info.replacement_api hnd) ?_
        intro okFix _
        refine frames_ite n _ _ _ _ ?_ (frames_pure n _ _ trivial)
        refine frames_bind (frames_metadataName n new_doc) ?_
        intro nm _
        exact frames_pure n _ _ trivial
      · refine frames_ite n _ _ _ _ ?_ (frames_pure n _ _ trivial)
        refine frames_bind
          (frames_replaceApiVersion n new_doc info.replacement_api hnd) ?_
        intro _ _
        refine frames_bind (frames_metadataName n new_doc) ?_
        intro nm _
        exact frames_pure n _ _ trivial

theorem dcopy_succ (fuel : Nat) (h : Heap) (a : Nat) :
    dcopy (fuel + 1) h a =
      match getH h a with
      | .scalar v => allocH h (.scalar v)
      | .list xs =>
          let r := xs.foldl (fun (p : Heap × List Nat) x =>
            let q := dcopy fuel p.1 x
            (q.1, p.2 ++ [q.2])) (h, [])
          allocH r.1 (.list r.2)
      | .dict es =>
          let r := es.foldl (fun (p : Heap × List (String × Nat)) kv =>
            let q := dcopy fuel p.1 kv.2
            (q.1, p.2 ++ [(kv.1, q.2)])) (h, [])
          allocH r.1 (.dict r.2) := by
  rfl

theorem dcopy_foldl_list (h : Heap) (fuel : Nat)
    (ih : ∀ a h', h.length ≤ h'.length → RCa h.length h' →
        (∀ b, b < h.length → getH h' b = getH h b) →
        a < h.length → a < fuel →
        h.length ≤ (dcopy fuel h' a).1.length ∧ RCa h.length (dcopy fuel h' a).1 ∧
        (∀ b, b < h.length → getH (dcopy fuel h' a).1 b = getH h b) ∧
        h.length ≤ (dcopy fuel h' a).2) :
    ∀ l : List Nat, (∀ x ∈ l, x < h.length ∧ x < fuel) →
    ∀ p : Heap × List Nat,
    h.length ≤ p.1.length → RCa h.length p.1 →
    (∀ b, b < h.length → getH p.1 b = getH h b) →
    (∀ y ∈ p.2, h.length ≤ y) →
    h.length ≤ (List.foldl (fun (p : Heap × List Nat) x =>
        let q := dcopy fuel p.1 x
        (q.1, p.2 ++ [q.2])) p l).1.length ∧
    RCa h.length (List.foldl (fun (p : Heap × List Nat) x =>
        let q := dcopy fuel p.1 x
        (q.1, p.2 ++ [q.2])) p l).1 ∧
    (∀ b, b < h.length → getH (List.foldl (fun (p : Heap × List Nat) x =>
        let q := dcopy fuel p.1 x
        (q.1, p.2 ++ [q.2])) p l).1 b = getH h b) ∧
    (∀ y ∈ (List.foldl (fun (p : Heap × List Nat) x =>
        let q := dcopy fuel p.1 x
        (q.1, p.2 ++ [q.2])) p l).2, h.length ≤ y) := by
  intro l
  induction l with
  | nil =>
      intro _ p h1 h2 h3 h4
      exact ⟨h1, h2, h3, h4⟩
  | cons x l ihl =>
      intro hl p h1 h2 h3 h4
      rw [List.foldl_cons]
      obtain ⟨hx1, hx2⟩ := hl x (List.mem_cons_self _ _)
      obtain ⟨g1, g2, g3, g4⟩ := ih x p.1 h1 h2 h3 hx1 hx2
      refine ihl (fun y hy => hl y (List.mem_cons_of_mem _ hy)) _ g1 g2 g3 ?_
      intro y hy
      dsimp only at hy
      rcases List.mem_append.mp hy with hy' | hy'
      · exact h4 y hy'
      · rw [List.mem_singleton.mp hy']
        exact g4

theorem dcopy_foldl_dict (h : Heap) (fuel : Nat)
    (ih : ∀ a h', h.length ≤ h'.length → RCa h.length h' →
        (∀ b, b < h.length → getH h' b = getH h b) →
        a < h.length → a < fuel →
        h.length ≤ (dcopy fuel h' a).1.length ∧ RCa h.length (dcopy fuel h' a).1 ∧
        (∀ b, b < h.length → getH (dcopy fuel h' a).1 b = getH h b) ∧
        h.length ≤ (dcopy fuel h' a).2) :
    ∀ l : List (String × Nat), (∀ kv ∈ l, kv.2 < h.length ∧ kv.2 < fuel) →
    ∀ p : Heap × List (String × Nat),
    h.length ≤ p.1.length → RCa h.length p.1 →
    (∀ b, b < h.length → getH p.1 b = getH h b) →
    (∀ y ∈ p.2, h.length ≤ y.2) →
    h.length ≤ (List.foldl (fun (p : Heap × List (String × Nat)) kv =>
        let q := dcopy fuel p.1 kv.2
        (q.1, p.2 ++ [(kv.1, q.2)])) p l).1.length ∧
    RCa h.length (List.foldl (fun (p : Heap × List (String × Nat)) kv =>
        let q := dcopy fuel p.1 kv.2
        (q.1, p.2 ++ [(kv.1, q.2)])) p l).1 ∧
    (∀ b, b < h.length → getH (List.foldl (fun (p : Heap × List (String × Nat)) kv =>
        let q := dcopy fuel p.1 kv.2
        (q.1, p.2 ++ [(kv.1, q.2)])) p l).1 b = getH h b) ∧
    (∀ y ∈ (List.foldl (fun (p : Heap × List (String × Nat)) kv =>
        let q := dcopy fuel p.1 kv.2
        (q.1, p.2 ++ [(kv.1, q.2)])) p l).2, h.length ≤ y.2) := by
  intro l
  induction l with
  | nil =>
      intro _ p h1 h2 h3 h4
      exact ⟨h1, h2, h3, h4⟩
  | cons kv l ihl =>
      intro hl p h1 h2 h3 h4
      rw [List.foldl_cons]
      obtain ⟨hx1, hx2⟩ := hl kv (List.mem_cons_self _ _)
      obtain ⟨g1, g2, g3, g4⟩ := ih kv.2 p.1 h1 h2 h3 hx1 hx2
      refine ihl (fun y hy => hl y (List.mem_cons_of_mem _ hy)) _ g1 g2 g3 ?_
      intro y hy
      dsimp only at hy
      rcases List.mem_append.mp hy with hy' | hy'
      · exact h4 y hy'
      · rw [List.mem_singleton.mp hy']
        exact g4

theorem dcopy_frames (h : Heap) (hW : WFHeap h) :
    ∀ fuel a h', h.length ≤ h'.length → RCa h.length h' →
      (∀ b, b < h.length → getH h' b = getH h b) →
      a < h.length → a < fuel →
      h.length ≤ (dcopy fuel h' a).1.length ∧ RCa h.length (dcopy fuel h' a).1 ∧
      (∀ b, b < h.length → getH (dcopy fuel h' a).1 b = getH h b) ∧
      h.length ≤ (dcopy fuel h' a).2 := by
  intro fuel
  induction fuel with
  | zero =>
      intro a h' _ _ _ _ hf
      exact absurd hf (Nat.not_lt_zero a)
  | succ fuel ih =>
      intro a h' hlen hr hpre ha hf
      have hga : getH h' a = getH h a := hpre a ha
      cases hnode : getH h a with
      | scalar v =>
          have hd : dcopy (fuel + 1) h' a = allocH h' (.scalar v) := by
            rw [dcopy_succ, hga, hnode]
          rw [hd]
          refine ⟨?_, ?_, ?_, ?_⟩
          · simp only [allocH, List.length_append, List.length_cons,
              List.length_nil]
            omega
          · exact RCa_append _ h' _ hr (by intro c hc; cases hc)
          · intro b hb
            exact (getH_append h' _ b (by omega)).trans (hpre b hb)
          · exact hlen
      | list xs =>
          have hch : ∀ x ∈ xs, x < a := by
            have hc := hW a ha
            rw [hnode] at hc
            exact hc
          obtain ⟨g1, g2, g3, g4⟩ :=
            dcopy_foldl_list h fuel ih xs
              (fun x hx => ⟨by have := hch x hx; omega,
                by have := hch x hx; omega⟩)
              (h', []) hlen hr hpre (by intro y hy; cases hy)
          have hd : dcopy (fuel + 1) h' a =
              allocH (List.foldl (fun (p : Heap × List Nat) x =>
                let q := dcopy fuel p.1 x
                (q.1, p.2 ++ [q.2])) (h', []) xs).1
              (.list (List.foldl (fun (p : Heap × List Nat) x =>
                let q := dcopy fuel p.1 x
                (q.1, p.2 ++ [q.2])) (h', []) xs).2) := by
            rw [dcopy_succ, hga, hnode]
          rw [hd]
          refine ⟨?_, ?_, ?_, ?_⟩
          · refine le_trans g1 ?_
            simp only [allocH, List.length_append, List.length_cons,
              List.length_nil]
            omega
          · exact RCa_append _ _ _ g2 g4
          · intro b hb
            exact (getH_append _ _ b (by omega)).trans (g3 b hb)
          · exact g1
      | dict es =>
          have hch : ∀ kv ∈ es, kv.2 < a := by
            have hc := hW a ha
            rw [hnode] at hc
            intro kv hkv
            exact hc kv.2 (List.mem_map_of_mem _ hkv)
          obtain ⟨g1, g2, g3, g4⟩ :=
            dcopy_foldl_dict h fuel ih es
              (fun kv hkv => ⟨by have := hch kv hkv; omega,
                by have := hch kv hkv; omega⟩)
              (h', []) hlen hr hpre (by intro y hy; cases hy)
          have hd : dcopy (fuel + 1) h' a =
              allocH (List.foldl (fun (p : Heap × List (String × Nat)) kv =>
                let q := dcopy fuel p.1 kv.2
                (q.1, p.2 ++ [(kv.1, q.2)])) (h', []) es).1
              (.dict (List.foldl (fun (p : Heap × List (String × Nat)) kv =>
                let q := dcopy fuel p.1 kv.2
                (q.1, p.2 ++ [(kv.1, q.2)])) (h', []) es).2) := by
            rw [dcopy_succ, hga, hnode]
          rw [hd]
          refine ⟨?_, ?_, ?_, ?_⟩
          · refine le_trans g1 ?_
            simp only [allocH, List.length_append, List.length_cons,
              List.length_nil]
            omega
          · refine RCa_append _ _ _ g2 ?_
            intro c hc
            obtain ⟨kv, hkv, hkvc⟩ := List.mem_map.mp hc
            rw [← hkvc]
            exact g4 kv hkv
          · intro b hb
            exact (getH_append _ _ b (by omega)).trans (g3 b hb)
          · exact g1

/-- C10.  `MigrationEngine.migrate` never mutates its argument: on the
explicit-heap model, after running the migration of the document at
`doc` — deep copy, decision logic and in-place strategy rewrites,
including runs whose strategy raises — every node of the original heap
is unchanged. -/
theorem migrate_never_mutates_input (tv : String) (h : Heap) (doc : Nat)
    (hW : WFHeap h) (hdoc : doc < h.length) :
    ∀ a, a < h.length → getH (migrateH tv h doc).1 a = getH h a := by
  intro a ha
  have hrca0 : RCa h.length h := by
    intro b hb c hc
    rw [getH_out_of_range h b hb] at hc
    cases hc
  obtain ⟨d1, d2, d3, d4⟩ :=
    dcopy_frames h hW (doc + 1) doc h (le_refl _) hrca0 (fun _ _ => rfl)
      hdoc (by omega)
  unfold migrateH
  rcases hdc : dcopy (doc + 1) h doc with ⟨h0, nd⟩
  rw [hdc] at d1 d2 d3 d4
  dsimp only
  have hframe : ∀ (apiS kindS : String) (info : DeprecationInfo)
      (h' : Heap) (r : Except String (List String)),
      hRunStrategy info nd apiS kindS h0 = (h', r) →
      getH h' a = getH h a := by
    intro apiS kindS info h' r hrs
    obtain ⟨f1, f2, f3, f4⟩ :=
      frames_runStrategy h.length info nd apiS kindS d4 h0 d1 d2
    have hpres := f3 a ha
    rw [hrs] at hpres
    exact hpres.trans (d3 a ha)
  split
  · exact d3 a ha
  · split
    · exact d3 a ha
    · split
      · exact d3 a ha
      · split
        · exact d3 a ha
        · split
          · next h' audit heq => exact hframe _ _ _ _ _ heq
          · next h' e heq => exact hframe _ _ _ _ _ heq

/-- Witness for C10: the concrete Deployment heap is well-formed, its
document address is in range, and after the migration run (which
rewrites the copy's `apiVersion` and adds a selector) the original
`apiVersion` scalar at address 0 is untouched. -/
theorem migrate_never_mutates_input_witness :
    WFHeap frameWitnessHeap ∧ 9 < frameWitnessHeap.length ∧
    getH (migrateH "v1.29" frameWitnessHeap 9).1 0 = getH frameWitnessHeap 0 :=
  ⟨by unfold WFHeap; decide, by decide,
    migrate_never_mutates_input "v1.29" frameWitnessHeap 9
      (by unfold WFHeap; decide) (by decide) 0 (by decide)⟩

end Yamlr
